import Mathlib

/-!
Verification development for the `qnode-logproc` statistics core
(`src/stats.rs`).  The Rust code is shallowly embedded: `HashMap` becomes an
association list (`AMap`) whose `insert` replaces the first occurrence of a
key in place and otherwise appends, and whose `erase` removes the first
occurrence; `VecDeque` becomes a `List` whose head is the deque front;
`i64` arithmetic becomes `Int` (Rust `/` on `i64` truncates toward zero,
embedded as `Int.tdiv`); `f64`/`f32` arithmetic is idealised as `ℚ`
(no claim under scrutiny depends on rounding; division by zero yields `0`
in `ℚ` where Rust would produce `inf`/`NaN`, noted where relevant);
the `f64 → usize` cast saturates (`f64AsUsize`) and the `i64 → usize`
cast wraps two's-complement style (`i64AsUsize`), both as in Rust;
`f64::consts::E.powf` is kept abstract as a strictly positive function
parameter `ex` applied to the exponent.  Wall-clock reads
(`Utc::now().timestamp_millis()`) become explicit `now` parameters.
-/

/-- Association-list model of Rust `HashMap`.  Keys are unique in every map
the program ever builds; `insert` updates the first matching entry in place
(preserving iteration order, as a model of updating through the entry API)
and appends fresh keys at the end. -/
@[reducible] def AMap (α β : Type) : Type := List (α × β)

/-- `HashMap::get` / indexing: value of the first entry with the given key. -/
def AMap.lookup {α β : Type} [DecidableEq α] : AMap α β → α → Option β
  | [], _ => none
  | (a, b) :: t, k => if a = k then some b else AMap.lookup t k

/-- `HashMap::insert` (also the net effect of `entry(..).and_modify(..).or_insert(..)`
once the stored value is known): replace the first entry with this key, or
append a new entry. -/
def AMap.insert {α β : Type} [DecidableEq α] : AMap α β → α → β → AMap α β
  | [], k, v => [(k, v)]
  | (a, b) :: t, k, v => if a = k then (k, v) :: t else (a, b) :: AMap.insert t k v

/-- `HashMap::remove`: drop the first entry with the given key. -/
def AMap.erase {α β : Type} [DecidableEq α] : AMap α β → α → AMap α β
  | [], _ => []
  | (a, b) :: t, k => if a = k then t else (a, b) :: AMap.erase t k

/-- `HashMap::keys`, in iteration order. -/
def AMap.keys {α β : Type} (m : AMap α β) : List α := List.map Prod.fst m

/-- `HashMap::is_empty`. -/
def AMap.isEmpty {α β : Type} (m : AMap α β) : Bool := List.isEmpty m

/-- `types.rs` `Level`. -/
inductive Level : Type
  | INFO : Level
  | ERROR : Level
  | DEBUG : Level
deriving DecidableEq

/-- `types.rs` `StatErrType`. -/
inductive StatErrType : Type
  | Malformed : StatErrType
deriving DecidableEq

/-- `stats.rs` `InnerOKRecord` (message already interned to `msg_id`). -/
structure InnerOKRecord : Type where
  received_millis : Int
  logged_millis : Int
  level : Level
  msg_id : Nat
deriving DecidableEq

/-- `stats.rs` `InnerErrRecord`. -/
structure InnerErrRecord : Type where
  received_millis : Int
  err_type : StatErrType
deriving DecidableEq

/-- `stats.rs` `InnerRecord`. -/
inductive InnerRecord : Type
  | OK : InnerOKRecord → InnerRecord
  | Err : InnerErrRecord → InnerRecord
deriving DecidableEq

/-- `InnerRecord::recv_timestamp_millis`. -/
def InnerRecord.recv_timestamp_millis : InnerRecord → Int
  | .OK ok => ok.received_millis
  | .Err err => err.received_millis

/-- `InnerRecord::log_timestamp_millis` (an `Err` record falls back to its
receive time). -/
def InnerRecord.log_timestamp_millis : InnerRecord → Int
  | .OK ok => ok.logged_millis
  | .Err err => err.received_millis

/-- `InnerRecord::log_timestamp`: milliseconds to seconds, Rust `i64`
division (truncation toward zero). -/
def InnerRecord.log_timestamp (r : InnerRecord) : Int :=
  r.log_timestamp_millis.tdiv 1000

/-- `stats.rs` `Act` (`Inc = 1`, `Dec = -1`). -/
inductive Act : Type
  | Inc : Act
  | Dec : Act
deriving DecidableEq

/-- The `act as i64` coercion. -/
def Act.val : Act → Int
  | .Inc => 1
  | .Dec => -1

/-- `stats.rs` `StatsSnapshot`.  Field names follow the source; `window` and
`previous_window` are in milliseconds. -/
structure StatsSnapshot : Type where
  entries : Int
  collected_interval : Int
  rate : ℚ
  peak_rate : ℚ
  error_rate : ℚ
  errors : Int
  infos : Int
  debugs : Int
  malformed : Int
  error_msg_counts : AMap Nat Int
  error_msg_per_sec : AMap Int (AMap Nat Int)
  error_msg_rates : AMap Nat ℚ
  window : Nat
  previous_window : Nat
  last_second_received : List Int
deriving DecidableEq

/-- The `#[fxstruct(no_new, default)]` initial snapshot: numeric fields `0`,
maps empty, `window` and `previous_window` defaulted to `60000`. -/
def initSnapshot : StatsSnapshot :=
  { entries := 0
    collected_interval := 0
    rate := 0
    peak_rate := 0
    error_rate := 0
    errors := 0
    infos := 0
    debugs := 0
    malformed := 0
    error_msg_counts := []
    error_msg_per_sec := []
    error_msg_rates := []
    window := 60000
    previous_window := 60000
    last_second_received := [] }

/-- Net effect of `entry(k).and_modify(|c| *c += act).or_insert(act)`:
store `old + act`, treating a missing entry as `0`. -/
def AMap.bump {α : Type} [DecidableEq α] (m : AMap α Int) (k : α) (d : Int) : AMap α Int :=
  AMap.insert m k (((AMap.lookup m k).getD 0) + d)

/-- `StatsSnapshot::count_inner_rec`.  For an `OK` record at `ERROR` level it
updates `errors`, `error_msg_counts` and `error_msg_per_sec` (pruning a
per-second entry that reaches zero, and the whole second when its map becomes
empty); `INFO`/`DEBUG`/`Malformed` touch only their counter. -/
def count_inner_rec (s : StatsSnapshot) (rec : InnerRecord) (act : Act) : StatsSnapshot :=
  match rec with
  | .OK ok =>
    match ok.level with
    | .ERROR =>
      let counts := AMap.bump s.error_msg_counts ok.msg_id act.val
      let log_time := rec.log_timestamp
      let inner := AMap.bump ((AMap.lookup s.error_msg_per_sec log_time).getD []) ok.msg_id act.val
      let cnt := (AMap.lookup inner ok.msg_id).getD 0
      let per_sec :=
        if cnt = 0 then
          let inner2 := AMap.erase inner ok.msg_id
          if AMap.isEmpty inner2 then
            AMap.erase (AMap.insert s.error_msg_per_sec log_time inner) log_time
          else
            AMap.insert s.error_msg_per_sec log_time inner2
        else
          AMap.insert s.error_msg_per_sec log_time inner
      { s with
        errors := s.errors + act.val
        error_msg_counts := counts
        error_msg_per_sec := per_sec }
    | .INFO => { s with infos := s.infos + act.val }
    | .DEBUG => { s with debugs := s.debugs + act.val }
  | .Err err =>
    match err.err_type with
    | .Malformed => { s with malformed := s.malformed + act.val }

/-- `StatsSnapshot::refresh_last_second` on the raw deque: optionally push a
timestamp onto the front, then pop from the back while the back element is
older than `now - 1000`.  The deque front is the list head. -/
def refresh_last_second (now : Int) (ts : Option Int) (dq : List Int) : List Int :=
  let dq2 := match ts with
    | some t => t :: dq
    | none => dq
  (dq2.reverse.dropWhile (fun last => decide (1000 < now - last))).reverse

/-- `refresh_last_second` lifted to the snapshot. -/
def refreshSnap (now : Int) (ts : Option Int) (s : StatsSnapshot) : StatsSnapshot :=
  { s with last_second_received := refresh_last_second now ts s.last_second_received }

/-- Rust `i64 as usize` on a 64-bit target: two's-complement wrap into
`[0, 2^64)`. -/
def i64AsUsize (v : Int) : Nat := (v % (2 ^ 64)).toNat

/-- Rust `f64 as usize`: truncate toward zero and saturate
(negative values to `0`, values at or above `2^64` to `usize::MAX`). -/
def f64AsUsize (q : ℚ) : Nat := min (q.num / (q.den : Int)).toNat (2 ^ 64 - 1)

/-- The group index `((now - msec) * 2 / window_size) as usize` from
`Stats::recalc_weights` (`i64` division truncating toward zero, then the
wrapping cast). -/
def groupIdx (now ws msec : Int) : Nat := i64AsUsize (((now - msec) * 2).tdiv ws)

/-- Inner loop of `Stats::recalc_weights`: fold one second-bucket into the
weight map of its group, adding `exq((base - msec) / window_size) * count`
for every `(msg_id, count)` entry.  `exq` abstracts `E.powf`. -/
def accumBucket (exq : ℚ → ℚ) (ws base msec : Int) (inner : AMap Nat Int)
    (g : AMap Nat ℚ) : AMap Nat ℚ :=
  List.foldl
    (fun acc p =>
      AMap.insert acc p.1
        (((AMap.lookup acc p.1).getD 0) + exq (((base - msec : Int) : ℚ) / (ws : ℚ)) * (p.2 : ℚ)))
    g inner

/-- The descending scan over second-buckets in `Stats::recalc_weights`:
group 0 (base `now - window_size/2`) is the newer half-window, group 1
(base `now`) the older; the scan stops at the first bucket whose group
index exceeds 1. -/
def scanGroups (exq : ℚ → ℚ) (per_sec : AMap Int (AMap Nat Int)) (now ws : Int) :
    List Int → AMap Nat ℚ × AMap Nat ℚ → AMap Nat ℚ × AMap Nat ℚ
  | [], g => g
  | sec :: rest, (g0, g1) =>
    let msec := sec * 1000
    let gi := groupIdx now ws msec
    if 1 < gi then (g0, g1)
    else
      let inner := (AMap.lookup per_sec sec).getD []
      if gi = 0 then
        scanGroups exq per_sec now ws rest (accumBucket exq ws (now - ws.tdiv 2) msec inner g0, g1)
      else
        scanGroups exq per_sec now ws rest (g0, accumBucket exq ws now msec inner g1)

/-- The observation span of `Stats::recalc_weights`:
`(front.log_timestamp_millis() - back.log_timestamp_millis()).max(MSG_ERROR_WINDOW)`
with `MSG_ERROR_WINDOW = 15000`. -/
def recalcSpan (front : InnerRecord) (rest : List InnerRecord) : Int :=
  max (front.log_timestamp_millis
      - ((front :: rest).getLast (List.cons_ne_nil front rest)).log_timestamp_millis)
    15000

/-- `Stats::recalc_weights`: returns with no change when the deque is empty
or spans less than 2 seconds (the span is floored at
`MSG_ERROR_WINDOW = 15000` ms, so the second guard never fires); otherwise
scans the buckets newest-first and rewrites `error_msg_rates` for every key
of `error_msg_counts` as newer-weight / older-weight, or `0` when the key is
absent from the older group. -/
def recalc_weights (exq : ℚ → ℚ) (records : List InnerRecord) (now : Int)
    (s : StatsSnapshot) : StatsSnapshot :=
  match records with
  | [] => s
  | front :: rest =>
    let window_size := recalcSpan front rest
    if window_size < 2000 then s
    else
      let seconds := List.insertionSort (· ≥ ·) (AMap.keys s.error_msg_per_sec)
      let g := scanGroups exq s.error_msg_per_sec now window_size seconds ([], [])
      let rates2 :=
        List.foldl
          (fun rates msg =>
            AMap.insert rates msg
              (match AMap.lookup g.2 msg with
               | some older => ((AMap.lookup g.1 msg).getD 0) / older
               | none => 0))
          s.error_msg_rates (AMap.keys s.error_msg_counts)
      { s with error_msg_rates := rates2 }

/-- The candidate window of `Stats::cleanup_and_adjust`, exactly as written
in the source: `((100_000.0 / rate) as usize).min(MIN_WINDOW).max(MAX_WINDOW) * 1000`
with `MIN_WINDOW = 30`, `MAX_WINDOW = 120` (seconds). -/
def newWindowCalc (rate : ℚ) : Nat :=
  (max (min (f64AsUsize (100000 / rate)) 30) 120) * 1000

/-- The window-adjustment tail of `Stats::cleanup_and_adjust`; the returned
flag is the `recalc` request for another pass. -/
def adjust_window (s : StatsSnapshot) : StatsSnapshot × Bool :=
  if 0 < s.rate then
    let expected_buffer_size := s.rate * ((s.window : ℚ) / 1000)
    if 100000 < expected_buffer_size ∨ expected_buffer_size < 75000 then
      let new_window := newWindowCalc s.rate
      if new_window ≠ s.window then
        ({ s with previous_window := s.window, window := new_window }, true)
      else (s, false)
    else (s, false)
  else (s, false)

/-- `Stats` state relevant to the claims: the snapshot (`stat` field) and the
`records` deque (head = front = newest). -/
structure StatsState : Type where
  stat : StatsSnapshot
  records : List InnerRecord
deriving DecidableEq

/-- The eviction loop of `Stats::cleanup_and_adjust` on the reversed deque
(so the list head is the deque back): pop and `count_inner_rec(.., Dec)`
while the back record was received before `oldest`. -/
def evictRev (oldest : Int) : List InnerRecord → StatsSnapshot → List InnerRecord × StatsSnapshot
  | [], s => ([], s)
  | r :: rest, s =>
    if r.recv_timestamp_millis < oldest then
      evictRev oldest rest (count_inner_rec s r .Dec)
    else (r :: rest, s)

/-- Back-eviction on the deque in front-first order. -/
def evictBack (oldest : Int) (records : List InnerRecord) (s : StatsSnapshot) :
    List InnerRecord × StatsSnapshot :=
  let p := evictRev oldest records.reverse s
  (p.1.reverse, p.2)

/-- Eviction and metric recomputation of one `cleanup_and_adjust` pass,
up to (not including) the window adjustment: set `entries` to the
pre-eviction deque length, evict from the back, recompute
`collected_interval`, conditionally `rate` and `peak_rate`, always
`error_rate`, recompute trend weights.  Returns the new snapshot and the
surviving deque. -/
def cleanupMetrics (exq : ℚ → ℚ) (now oldest : Int) (st : StatsState) :
    StatsSnapshot × List InnerRecord :=
  let s0 := { st.stat with entries := (st.records.length : Int) }
  let p := evictBack oldest st.records s0
  let records := p.1
  let interval := ((records.head?.map InnerRecord.recv_timestamp_millis).getD 0)
      - ((records.getLast?.map InnerRecord.recv_timestamp_millis).getD 0)
  let s2 := { p.2 with collected_interval := interval }
  let s3 := if 100 < interval then { s2 with rate := (s2.entries : ℚ) / ((interval : ℚ) / 1000) } else s2
  let s4 := if 1000 ≤ interval then { s3 with peak_rate := max s3.rate s3.peak_rate } else s3
  let s5 := { s4 with error_rate := (s4.errors : ℚ) / (s4.entries : ℚ) }
  (recalc_weights exq records now s5, records)

/-- One pass of the `while recalc` loop in `Stats::cleanup_and_adjust`:
the metric stage followed by the window adjustment.  Returns the state and
the `recalc` flag. -/
def cleanupPass (exq : ℚ → ℚ) (now oldest : Int) (st : StatsState) : StatsState × Bool :=
  let p := cleanupMetrics exq now oldest st
  let q := adjust_window p.1
  ({ stat := q.1, records := p.2 }, q.2)

/-- The `while recalc` loop with explicit fuel; a pass requesting another
iteration consumes one unit. -/
def cleanupLoop (exq : ℚ → ℚ) (now oldest : Int) : Nat → StatsState → StatsState
  | 0, st => st
  | n + 1, st =>
    let p := cleanupPass exq now oldest st
    if p.2 then cleanupLoop exq now oldest n p.1 else p.1

/-- `Stats::cleanup_and_adjust`: `oldest` is computed once from the window at
entry and reused by every pass.  Fuel 2 realises the source loop exactly:
`cleanupLoop_stable` below proves a pass that changes the window is followed
by a pass that requests no further iteration, so every fuel of at least 2
yields this same result. -/
def cleanup_and_adjust (exq : ℚ → ℚ) (now : Int) (st : StatsState) : StatsState :=
  cleanupLoop exq now (now - (st.stat.window : Int)) 2 st

/-- `Stats::process_ok` (the message already interned): refresh the
last-second deque, count the record in, push it onto the deque front, then
run `cleanup_and_adjust`. -/
def process_ok (exq : ℚ → ℚ) (now : Int) (rec : InnerOKRecord) (st : StatsState) : StatsState :=
  let s1 := refreshSnap now (some rec.received_millis) st.stat
  let s2 := count_inner_rec s1 (.OK rec) .Inc
  cleanup_and_adjust exq now { stat := s2, records := .OK rec :: st.records }

/-- `Stats::process_err`: count the malformed record in and push it;
no refresh, no cleanup. -/
def process_err (rec : InnerErrRecord) (st : StatsState) : StatsState :=
  { stat := count_inner_rec st.stat (.Err rec) .Inc
    records := .Err rec :: st.records }

/-- The freshly built `Stats`: default snapshot, empty deque. -/
def initState : StatsState := { stat := initSnapshot, records := [] }

/-- States reachable by the program: the initial state, OK ingests, malformed
ingests, and reporting ticks (the reporter only calls `cleanup_and_adjust`
when the deque is non-empty).  `exq` abstracts the exponential used by the
trend engine. -/
inductive Reach (exq : ℚ → ℚ) : StatsState → Prop
  | init : Reach exq initState
  | ok (now : Int) (rec : InnerOKRecord) {st : StatsState} :
      Reach exq st → Reach exq (process_ok exq now rec st)
  | err (rec : InnerErrRecord) {st : StatsState} :
      Reach exq st → Reach exq (process_err rec st)
  | tick (now : Int) {st : StatsState} :
      st.records ≠ [] → Reach exq st → Reach exq (cleanup_and_adjust exq now st)

/-- Wellformedness of `error_msg_per_sec` that the program maintains: no
stored second maps to an empty inner map and every stored per-second count is
positive. -/
def perSecWFpos (ps : AMap Int (AMap Nat Int)) : Prop :=
  ∀ p ∈ ps, p.2 ≠ [] ∧ ∀ e ∈ p.2, 0 < e.2

/-- Weak form of the per-second wellformedness: inner maps are non-empty and
store no zero count (spec §3, invariant 3). -/
def perSecNoZero (ps : AMap Int (AMap Nat Int)) : Prop :=
  ∀ p ∈ ps, p.2 ≠ [] ∧ ∀ e ∈ p.2, e.2 ≠ 0

/-- The `error_msg_per_sec` update `count_inner_rec` performs for an
`ERROR` record, lifted out for the invariant proofs; definitionally equal to
the update inlined in `count_inner_rec`. -/
def perSecStep (P : AMap Int (AMap Nat Int)) (t : Int) (m : Nat) (d : Int) :
    AMap Int (AMap Nat Int) :=
  let inner := AMap.bump ((AMap.lookup P t).getD []) m d
  let cnt := (AMap.lookup inner m).getD 0
  if cnt = 0 then
    let inner2 := AMap.erase inner m
    if AMap.isEmpty inner2 then AMap.erase (AMap.insert P t inner) t
    else AMap.insert P t inner2
  else AMap.insert P t inner

/-- The sum of the four level counters; the claims compare it with
`entries` and with the deque length. -/
def countersSum (s : StatsSnapshot) : Int := s.errors + s.infos + s.debugs + s.malformed

/-- Key uniqueness of an association-list map (true of every Rust `HashMap`). -/
def AMap.NodupKeys {α β : Type} (m : AMap α β) : Prop := (List.map Prod.fst m).Nodup

instance nodupKeysDecidable {α β : Type} [DecidableEq α] (m : AMap α β) :
    Decidable (AMap.NodupKeys m) :=
  decidable_of_iff ((List.map Prod.fst m).Nodup) Iff.rfl

/-- Count stored for a key, missing entries reading as `0`. -/
def lookupCount (m : AMap Nat Int) (k : Nat) : Int := (AMap.lookup m k).getD 0

/-- Total count of a message over all second-buckets of `error_msg_per_sec`
(the sum the spec compares `error_msg_counts` against). -/
def perSecTotal (ps : AMap Int (AMap Nat Int)) (msg : Nat) : Int :=
  (List.map (fun p => lookupCount p.2 msg) ps).sum

/-- Inductive invariant tying `error_msg_counts` to `error_msg_per_sec`:
the histogram value (missing read as 0) equals the per-second total, the
per-second structure is pruned (non-empty inner maps, no zero counts), and
both levels have unique keys. -/
def mapsInv (s : StatsSnapshot) : Prop :=
  (∀ msg, lookupCount s.error_msg_counts msg = perSecTotal s.error_msg_per_sec msg)
    ∧ perSecNoZero s.error_msg_per_sec
    ∧ AMap.NodupKeys s.error_msg_per_sec
    ∧ ∀ p ∈ s.error_msg_per_sec, AMap.NodupKeys p.2

/-- Follows the spec wording for the adaptive window (§4.4 step 8):
`clamp(100_000 / rate seconds, MIN_WINDOW, MAX_WINDOW) * 1000 ms` — compare
with `newWindowCalc`, which embeds the source expression. -/
def windowClampSpec (rate : ℚ) : Nat :=
  (min (max (f64AsUsize (100000 / rate)) 30) 120) * 1000

/-- Base time of a weight group in `Stats::recalc_weights`: group 0 (newer)
uses `now - window_size / 2`, group 1 (older) uses `now`. -/
def baseTime (now ws : Int) (j : Nat) : Int :=
  if j = 0 then now - ws.tdiv 2 else now

/-- Count of a message in one second-bucket of `error_msg_per_sec`. -/
def bucketCount (ps : AMap Int (AMap Nat Int)) (sec : Int) (msg : Nat) : Int :=
  lookupCount ((AMap.lookup ps sec).getD []) msg

/-- Follows the spec wording for the trend weights (§4.5 step 4): the weight
of `msg` in group `j` is the sum, over the second-buckets of group `j`, of
`exp((base_time[j] - s*1000) / span) * count`.  Buckets not containing `msg`
contribute `0`. -/
def groupWeightSpec (exq : ℚ → ℚ) (ps : AMap Int (AMap Nat Int)) (now ws : Int)
    (secs : List Int) (j : Nat) (msg : Nat) : ℚ :=
  (List.map
    (fun sec => exq (((baseTime now ws j - sec * 1000 : Int) : ℚ) / (ws : ℚ)) * (bucketCount ps sec msg : ℚ))
    (List.filter (fun sec => groupIdx now ws (sec * 1000) = j) secs)).sum

/-- A second-bucket of group `j` containing `msg` exists among `secs`:
exactly when the scan of `Stats::recalc_weights` creates a weight entry for
`msg` in group `j`. -/
def secContrib (ps : AMap Int (AMap Nat Int)) (now ws : Int) (secs : List Int)
    (j : Nat) (msg : Nat) : Prop :=
  ∃ sec ∈ secs, groupIdx now ws (sec * 1000) = j
    ∧ (AMap.lookup ((AMap.lookup ps sec).getD []) msg).isSome

instance secContribDecidable (ps : AMap Int (AMap Nat Int)) (now ws : Int) (secs : List Int)
    (j : Nat) (msg : Nat) : Decidable (secContrib ps now ws secs j msg) :=
  decidable_of_iff
    (∃ sec ∈ secs, groupIdx now ws (sec * 1000) = j
      ∧ (AMap.lookup ((AMap.lookup ps sec).getD []) msg).isSome)
    Iff.rfl

/-- A concrete strictly positive stand-in for `E.powf`, used by witnesses and
counterexamples. -/
def exOne : ℚ → ℚ := fun _ => 1

/-- A concrete interned `ERROR` record. -/
def recE : InnerOKRecord :=
  { received_millis := 0, logged_millis := 0, level := .ERROR, msg_id := 7 }

/-- A concrete interned `INFO` record. -/
def recI : InnerOKRecord :=
  { received_millis := 0, logged_millis := 0, level := .INFO, msg_id := 0 }

/-- A concrete malformed record. -/
def errRec0 : InnerErrRecord := { received_millis := 0, err_type := .Malformed }

/-- Ingesting `recI` at wall time 100000 into the fresh state: the record is
received 100 s before `now`, so the cleanup pass inside `process_ok` evicts
it right after `entries` was set to the pre-eviction length 1. -/
def c3State : StatsState := process_ok exOne 100000 recI initState

/-- Same scenario with the `ERROR` record `recE`: after eviction the
histogram keeps key 7 with value 0 while `error_msg_per_sec` is empty. -/
def c4State : StatsState := process_ok exOne 100000 recE initState

/-- Snapshot for the trend-engine theorems: one error message (id 7) seen
once in the future bucket at second 1 and once in the old bucket at second
-8 (with `now = 0` and span 15000 these land in groups 0 and 1). -/
def s10 : StatsSnapshot :=
  { initSnapshot with
    error_msg_counts := [(7, 2)]
    error_msg_per_sec := [((1 : Int), [((7 : Nat), (1 : Int))]), ((-8 : Int), [((7 : Nat), (1 : Int))])] }

/-- A single deque record making `recalc_weights` run with span 15000. -/
def r10 : InnerRecord :=
  .OK { received_millis := 0, logged_millis := 0, level := .ERROR, msg_id := 7 }

/-- Snapshot whose only second-bucket (second 8) lies at least half a span
in the future of `now = 0`: the scan's group index wraps and breaks at once. -/
def sFar : StatsSnapshot :=
  { initSnapshot with
    error_msg_counts := [(7, 1)]
    error_msg_per_sec := [((8 : Int), [((7 : Nat), (1 : Int))])] }

/-- Snapshot for the C7 witness: message 5 seen twice in the bucket at
second -1 (group 0 for `now = 0`), no older bucket. -/
def sw7 : StatsSnapshot :=
  { initSnapshot with
    error_msg_counts := [(5, 2)]
    error_msg_per_sec := [((-1 : Int), [((5 : Nat), (2 : Int))])] }

theorem AMap.lookup_insert {α β : Type} [DecidableEq α] (m : AMap α β) (k : α) (v : β) :
    AMap.lookup (AMap.insert m k v) k = some v := by
  induction m with
  | nil => simp [AMap.insert, AMap.lookup]
  | cons p t ih =>
    obtain ⟨a, b⟩ := p
    by_cases h : a = k
    · simp [AMap.insert, AMap.lookup, h]
    · simp [AMap.insert, AMap.lookup, h, ih]

theorem AMap.lookup_insert_ne {α β : Type} [DecidableEq α] (m : AMap α β) {k k' : α} (v : β)
    (h : k' ≠ k) : AMap.lookup (AMap.insert m k v) k' = AMap.lookup m k' := by
  have hkk : ¬(k = k') := fun h2 => h h2.symm
  induction m with
  | nil => simp [AMap.insert, AMap.lookup, hkk]
  | cons p t ih =>
    obtain ⟨a, b⟩ := p
    by_cases ha : a = k
    · subst ha
      simp [AMap.insert, AMap.lookup, hkk]
    · simp [AMap.insert, AMap.lookup, ha, ih]

theorem AMap.insert_insert {α β : Type} [DecidableEq α] (m : AMap α β) (k : α) (v w : β) :
    AMap.insert (AMap.insert m k v) k w = AMap.insert m k w := by
  induction m with
  | nil => simp [AMap.insert]
  | cons p t ih =>
    obtain ⟨a, b⟩ := p
    by_cases h : a = k
    · simp [AMap.insert, h]
    · simp [AMap.insert, h, ih]

theorem AMap.insert_self {α β : Type} [DecidableEq α] {m : AMap α β} {k : α} {v : β}
    (h : AMap.lookup m k = some v) : AMap.insert m k v = m := by
  induction m with
  | nil => simp [AMap.lookup] at h
  | cons p t ih =>
    obtain ⟨a, b⟩ := p
    by_cases ha : a = k
    · simp [AMap.lookup, ha] at h
      simp [AMap.insert, ha, h]
    · simp [AMap.lookup, ha] at h
      simp [AMap.insert, ha, ih h]

theorem AMap.erase_insert {α β : Type} [DecidableEq α] (m : AMap α β) (k : α) (v : β) :
    AMap.erase (AMap.insert m k v) k = AMap.erase m k := by
  induction m with
  | nil => simp [AMap.insert, AMap.erase]
  | cons p t ih =>
    obtain ⟨a, b⟩ := p
    by_cases h : a = k
    · simp [AMap.insert, AMap.erase, h]
    · simp [AMap.insert, AMap.erase, h, ih]

theorem AMap.erase_absent {α β : Type} [DecidableEq α] {m : AMap α β} {k : α}
    (h : AMap.lookup m k = none) : AMap.erase m k = m := by
  induction m with
  | nil => simp [AMap.erase]
  | cons p t ih =>
    obtain ⟨a, b⟩ := p
    by_cases ha : a = k
    · simp [AMap.lookup, ha] at h
    · simp [AMap.lookup, ha] at h
      simp [AMap.erase, ha, ih h]

theorem AMap.lookup_erase_ne {α β : Type} [DecidableEq α] (m : AMap α β) {k k' : α}
    (h : k' ≠ k) : AMap.lookup (AMap.erase m k) k' = AMap.lookup m k' := by
  induction m with
  | nil => simp [AMap.erase]
  | cons p t ih =>
    obtain ⟨a, b⟩ := p
    by_cases ha : a = k
    · have hk2 : ¬(k = k') := fun h2 => h h2.symm
      simp [AMap.erase, AMap.lookup, ha, hk2]
    · simp [AMap.erase, AMap.lookup, ha, ih]

theorem AMap.lookup_mem {α β : Type} [DecidableEq α] {m : AMap α β} {k : α} {v : β}
    (h : AMap.lookup m k = some v) : (k, v) ∈ m := by
  induction m with
  | nil => simp [AMap.lookup] at h
  | cons p t ih =>
    obtain ⟨a, b⟩ := p
    by_cases ha : a = k
    · simp [AMap.lookup, ha] at h
      subst ha h
      exact List.mem_cons_self _ _
    · simp [AMap.lookup, ha] at h
      exact List.mem_cons_of_mem _ (ih h)

theorem AMap.mem_insert {α β : Type} [DecidableEq α] {m : AMap α β} {k : α} {v : β}
    {p : α × β} (h : p ∈ AMap.insert m k v) : p = (k, v) ∨ p ∈ m := by
  induction m with
  | nil =>
    simp [AMap.insert] at h
    exact Or.inl h
  | cons q t ih =>
    obtain ⟨a, b⟩ := q
    by_cases ha : a = k
    · simp [AMap.insert, ha] at h
      rcases h with h | h
      · exact Or.inl (by simp [h])
      · exact Or.inr (List.mem_cons_of_mem _ h)
    · simp [AMap.insert, ha] at h
      rcases h with h | h
      · exact Or.inr (by simp [h])
      · rcases ih h with h2 | h2
        · exact Or.inl h2
        · exact Or.inr (List.mem_cons_of_mem _ h2)

theorem AMap.mem_erase {α β : Type} [DecidableEq α] {m : AMap α β} {k : α}
    {p : α × β} (h : p ∈ AMap.erase m k) : p ∈ m := by
  induction m with
  | nil => simp [AMap.erase] at h
  | cons q t ih =>
    obtain ⟨a, b⟩ := q
    by_cases ha : a = k
    · simp [AMap.erase, ha] at h
      exact List.mem_cons_of_mem _ h
    · simp [AMap.erase, ha] at h
      rcases h with h | h
      · simp [h]
      · exact List.mem_cons_of_mem _ (ih h)

/-- Claim C2 (corrected): applying a record with `+1` and then `-1` restores
every field of the snapshot — including `error_msg_per_sec` exactly, given
the per-second wellformedness the program maintains — except that
`error_msg_counts` retains the record's `msg_id` with value `0` (appended by
`AMap.insert`) when that key was absent before; the key set of
`error_msg_counts` is therefore not always restored. -/
theorem C2_apply_symmetry (s : StatsSnapshot) (rec : InnerRecord)
    (h : perSecWFpos s.error_msg_per_sec) :
    count_inner_rec (count_inner_rec s rec .Inc) rec .Dec =
      (match rec with
       | .OK ok =>
         if ok.level = Level.ERROR ∧ AMap.lookup s.error_msg_counts ok.msg_id = none
         then { s with error_msg_counts := AMap.insert s.error_msg_counts ok.msg_id 0 }
         else s
       | .Err _ => s) := by
  cases rec with
  | Err e =>
    obtain ⟨rm, et⟩ := e
    cases et
    simp [count_inner_rec, Act.val]
  | OK ok =>
    cases hok : ok.level with
    | INFO => simp [count_inner_rec, Act.val, hok]
    | DEBUG => simp [count_inner_rec, Act.val, hok]
    | ERROR =>
      have hmain :
          count_inner_rec (count_inner_rec s (.OK ok) .Inc) (.OK ok) .Dec =
            { s with error_msg_counts := AMap.insert s.error_msg_counts ok.msg_id ((AMap.lookup s.error_msg_counts ok.msg_id).getD 0) } := by
        set t := (InnerRecord.OK ok).log_timestamp with ht
        cases hP : AMap.lookup s.error_msg_per_sec t with
        | none =>
          simp [count_inner_rec, Act.val, hok, ← ht, hP, AMap.bump,
            AMap.lookup_insert, AMap.insert_insert, AMap.erase_insert,
            AMap.erase_absent hP, AMap.lookup, AMap.insert, AMap.erase, AMap.isEmpty]
        | some inner =>
          obtain ⟨hne, hpos⟩ := h (t, inner) (AMap.lookup_mem hP)
          cases hm : AMap.lookup inner ok.msg_id with
          | none =>
            have hie : AMap.isEmpty inner = false := by
              cases inner with
              | nil => exact absurd rfl hne
              | cons q r => rfl
            simp [count_inner_rec, Act.val, hok, ← ht, hP, AMap.bump, hm,
              AMap.lookup_insert, AMap.insert_insert, AMap.erase_insert,
              AMap.erase_absent hm, hie, AMap.insert_self hP]
          | some v =>
            have hv : 0 < v := hpos (ok.msg_id, v) (AMap.lookup_mem hm)
            have hv1 : ¬(v + 1 = 0) := by omega
            have hv0 : ¬(v = 0) := by omega
            simp [count_inner_rec, Act.val, hok, ← ht, hP, AMap.bump, hm,
              AMap.lookup_insert, AMap.insert_insert, hv1, hv0,
              AMap.insert_self hm, AMap.insert_self hP]
      rw [hmain]
      cases hCm : AMap.lookup s.error_msg_counts ok.msg_id with
      | none => simp [hok, hCm]
      | some c => simp [hok, hCm, AMap.insert_self hCm]

/-- Claim C2 witness: for a malformed record on the fresh snapshot the
round trip restores the state exactly; the wellformedness hypothesis holds
for the empty per-second table. -/
theorem C2_apply_symmetry_witness :
    count_inner_rec (count_inner_rec initSnapshot (.Err errRec0) .Inc) (.Err errRec0) .Dec
      = initSnapshot :=
  C2_apply_symmetry initSnapshot (.Err errRec0) (fun p hp => absurd hp (List.not_mem_nil p))

/-- Claim C2 counterexample: applying the `ERROR` record with id 7 to the
fresh snapshot with `+1` and then `-1` does not restore the snapshot — the
histogram keeps the key 7 with value 0 — refuting exact symmetry as claimed. -/
theorem C2_apply_symmetry_counterexample :
    count_inner_rec (count_inner_rec initSnapshot (.OK recE) .Inc) (.OK recE) .Dec
      ≠ initSnapshot := by
  decide

theorem count_inner_rec_err (s : StatsSnapshot) (e : InnerErrRecord) (act : Act) :
    count_inner_rec s (.Err e) act = { s with malformed := s.malformed + act.val } := by
  obtain ⟨rm, et⟩ := e
  cases et
  rfl

theorem process_err_fold (errs : List InnerErrRecord) (st : StatsState) :
    (List.foldl (fun acc e => process_err e acc) st errs).stat.malformed
        = st.stat.malformed + (errs.length : Int)
      ∧ (List.foldl (fun acc e => process_err e acc) st errs).stat.errors = st.stat.errors
      ∧ (List.foldl (fun acc e => process_err e acc) st errs).stat.infos = st.stat.infos
      ∧ (List.foldl (fun acc e => process_err e acc) st errs).stat.debugs = st.stat.debugs
      ∧ (List.foldl (fun acc e => process_err e acc) st errs).stat.error_msg_per_sec
          = st.stat.error_msg_per_sec
      ∧ (List.foldl (fun acc e => process_err e acc) st errs).stat.error_msg_counts
          = st.stat.error_msg_counts := by
  induction errs generalizing st with
  | nil => simp
  | cons e rest ih =>
    have step : (process_err e st).stat = { st.stat with malformed := st.stat.malformed + 1 } := by
      show count_inner_rec st.stat (.Err e) .Inc = _
      rw [count_inner_rec_err]
      rfl
    obtain ⟨h1, h2, h3, h4, h5, h6⟩ := ih (process_err e st)
    refine ⟨?_, ?_, ?_, ?_, ?_, ?_⟩ <;>
      simp [List.foldl_cons, h1, h2, h3, h4, h5, h6, step] <;> push_cast <;> omega

/-- Claim C9 (confirmed): counting a malformed record (either direction)
changes only the `malformed` counter, and ingesting any sequence of
malformed records from the fresh state leaves `malformed` at their number,
`errors`, `infos` and `debugs` at 0, `error_msg_per_sec` empty and
`error_msg_counts` without entries. -/
theorem C9_malformed_frame :
    (∀ (s : StatsSnapshot) (e : InnerErrRecord) (act : Act),
        count_inner_rec s (.Err e) act = { s with malformed := s.malformed + act.val })
      ∧ ∀ errs : List InnerErrRecord,
          (List.foldl (fun acc e => process_err e acc) initState errs).stat.malformed
              = (errs.length : Int)
            ∧ (List.foldl (fun acc e => process_err e acc) initState errs).stat.errors = 0
            ∧ (List.foldl (fun acc e => process_err e acc) initState errs).stat.infos = 0
            ∧ (List.foldl (fun acc e => process_err e acc) initState errs).stat.debugs = 0
            ∧ (List.foldl (fun acc e => process_err e acc) initState errs).stat.error_msg_per_sec = []
            ∧ (List.foldl (fun acc e => process_err e acc) initState errs).stat.error_msg_counts = [] := by
  refine ⟨count_inner_rec_err, fun errs => ?_⟩
  obtain ⟨h1, h2, h3, h4, h5, h6⟩ := process_err_fold errs initState
  refine ⟨?_, ?_, ?_, ?_, ?_, ?_⟩ <;> simp [h1, h2, h3, h4, h5, h6] <;> rfl

theorem newWindowCalc_eq (rate : ℚ) : newWindowCalc rate = 120000 := by
  unfold newWindowCalc
  have h : min (f64AsUsize (100000 / rate)) 30 ≤ 120 :=
    le_trans (Nat.min_le_right _ _) (by norm_num)
  rw [Nat.max_eq_right h]

theorem count_inner_rec_frame (s : StatsSnapshot) (rec : InnerRecord) (act : Act) :
    (count_inner_rec s rec act).window = s.window
      ∧ (count_inner_rec s rec act).previous_window = s.previous_window
      ∧ (count_inner_rec s rec act).rate = s.rate
      ∧ (count_inner_rec s rec act).peak_rate = s.peak_rate
      ∧ (count_inner_rec s rec act).error_rate = s.error_rate
      ∧ (count_inner_rec s rec act).entries = s.entries
      ∧ (count_inner_rec s rec act).collected_interval = s.collected_interval
      ∧ (count_inner_rec s rec act).last_second_received = s.last_second_received
      ∧ (count_inner_rec s rec act).error_msg_rates = s.error_msg_rates := by
  cases rec with
  | Err e =>
    obtain ⟨rm, et⟩ := e
    cases et
    exact ⟨rfl, rfl, rfl, rfl, rfl, rfl, rfl, rfl, rfl⟩
  | OK ok =>
    cases hok : ok.level <;> simp [count_inner_rec, hok]

theorem count_inner_rec_sum (s : StatsSnapshot) (rec : InnerRecord) (act : Act) :
    (count_inner_rec s rec act).errors + (count_inner_rec s rec act).infos
        + (count_inner_rec s rec act).debugs + (count_inner_rec s rec act).malformed
      = s.errors + s.infos + s.debugs + s.malformed + act.val := by
  cases rec with
  | Err e =>
    obtain ⟨rm, et⟩ := e
    cases et
    simp [count_inner_rec]
    ring
  | OK ok =>
    cases hok : ok.level <;> simp [count_inner_rec, hok] <;> ring

theorem recalc_weights_frame (exq : ℚ → ℚ) (recs : List InnerRecord) (now : Int)
    (s : StatsSnapshot) :
    ∃ r2, recalc_weights exq recs now s = { s with error_msg_rates := r2 } := by
  cases recs with
  | nil => exact ⟨s.error_msg_rates, rfl⟩
  | cons front rest =>
    by_cases hw : recalcSpan front rest < 2000
    · exact ⟨s.error_msg_rates, by simp [recalc_weights, hw]⟩
    · refine ⟨(recalc_weights exq (front :: rest) now s).error_msg_rates, ?_⟩
      simp [recalc_weights, hw]

theorem adjust_window_fst (s : StatsSnapshot) :
    (adjust_window s).1 = s
      ∨ (adjust_window s).1 = { s with previous_window := s.window, window := 120000 } := by
  simp only [adjust_window]
  split_ifs with h1 h2 h3
  · right
    simp [newWindowCalc_eq]
  · exact Or.inl rfl
  · exact Or.inl rfl
  · exact Or.inl rfl

theorem adjust_window_flag (s : StatsSnapshot) (h : (adjust_window s).2 = true) :
    (adjust_window s).1.window = 120000 := by
  simp only [adjust_window] at h ⊢
  split_ifs at h ⊢ with h1 h2 h3
  all_goals first
  | simp [newWindowCalc_eq]
  | simp at h

theorem adjust_window_fixed (s : StatsSnapshot) (h : s.window = 120000) :
    adjust_window s = (s, false) := by
  simp only [adjust_window]
  split_ifs with h1 h2 h3
  · rw [newWindowCalc_eq, h] at h3
    exact absurd rfl h3
  · rfl
  · rfl
  · rfl

theorem recalc_weights_window (exq : ℚ → ℚ) (recs : List InnerRecord) (now : Int)
    (s : StatsSnapshot) : (recalc_weights exq recs now s).window = s.window := by
  obtain ⟨r2, hr⟩ := recalc_weights_frame exq recs now s
  rw [hr]

theorem evictRev_window (oldest : Int) (l : List InnerRecord) (s : StatsSnapshot) :
    (evictRev oldest l s).2.window = s.window := by
  induction l generalizing s with
  | nil => rfl
  | cons r rest ih =>
    by_cases h : r.recv_timestamp_millis < oldest
    · simp [evictRev, h, ih, (count_inner_rec_frame _ r .Dec).1]
    · simp [evictRev, h]

theorem cleanupMetrics_window (exq : ℚ → ℚ) (now oldest : Int) (st : StatsState) :
    (cleanupMetrics exq now oldest st).1.window = st.stat.window := by
  simp only [cleanupMetrics, evictBack]
  rw [recalc_weights_window]
  split_ifs <;> simp [evictRev_window]

theorem cleanupPass_window_or (exq : ℚ → ℚ) (now oldest : Int) (st : StatsState) :
    (cleanupPass exq now oldest st).1.stat.window = st.stat.window
      ∨ (cleanupPass exq now oldest st).1.stat.window = 120000 := by
  simp only [cleanupPass]
  rcases adjust_window_fst (cleanupMetrics exq now oldest st).1 with h | h
  · left
    rw [h, cleanupMetrics_window]
  · right
    rw [h]

theorem cleanupPass_flag_window (exq : ℚ → ℚ) (now oldest : Int) (st : StatsState)
    (h : (cleanupPass exq now oldest st).2 = true) :
    (cleanupPass exq now oldest st).1.stat.window = 120000 := by
  simp only [cleanupPass] at h ⊢
  exact adjust_window_flag _ h

theorem cleanupPass_fixed (exq : ℚ → ℚ) (now oldest : Int) (st : StatsState)
    (h : st.stat.window = 120000) : (cleanupPass exq now oldest st).2 = false := by
  simp only [cleanupPass]
  rw [adjust_window_fixed _ (by rw [cleanupMetrics_window]; exact h)]

theorem cleanupLoop_succ (exq : ℚ → ℚ) (now oldest : Int) (n : Nat) (st : StatsState) :
    cleanupLoop exq now oldest (n + 1) st =
      (if (cleanupPass exq now oldest st).2
       then cleanupLoop exq now oldest n (cleanupPass exq now oldest st).1
       else (cleanupPass exq now oldest st).1) := rfl

theorem cleanupLoop_stable (exq : ℚ → ℚ) (now oldest : Int) (n : Nat) (st : StatsState) :
    cleanupLoop exq now oldest (n + 2) st = cleanupLoop exq now oldest 2 st := by
  have h2 : n + 2 = (n + 1) + 1 := rfl
  rw [h2, cleanupLoop_succ]
  conv_rhs => rw [show (2 : Nat) = 1 + 1 from rfl, cleanupLoop_succ]
  cases hp : (cleanupPass exq now oldest st).2 with
  | false => simp [hp]
  | true =>
    have hw : (cleanupPass exq now oldest st).1.stat.window = 120000 :=
      cleanupPass_flag_window _ _ _ _ hp
    have hf : (cleanupPass exq now oldest (cleanupPass exq now oldest st).1).2 = false :=
      cleanupPass_fixed _ _ _ _ hw
    simp only [hp, if_true]
    rw [cleanupLoop_succ exq now oldest n]
    conv_rhs => rw [show (1 : Nat) = 0 + 1 from rfl, cleanupLoop_succ]
    rw [hf]
    simp

theorem cleanupLoop_window_or (exq : ℚ → ℚ) (now oldest : Int) (fuel : Nat) (st : StatsState) :
    (cleanupLoop exq now oldest fuel st).stat.window = st.stat.window
      ∨ (cleanupLoop exq now oldest fuel st).stat.window = 120000 := by
  induction fuel generalizing st with
  | zero => exact Or.inl rfl
  | succ n ih =>
    rw [cleanupLoop_succ]
    by_cases hp : (cleanupPass exq now oldest st).2
    · simp only [hp, if_true]
      rcases ih (cleanupPass exq now oldest st).1 with h | h
      · rw [h]
        exact cleanupPass_window_or exq now oldest st
      · exact Or.inr h
    · simp only [hp, if_false, Bool.false_eq_true]
      exact cleanupPass_window_or exq now oldest st

theorem cleanup_and_adjust_window_or (exq : ℚ → ℚ) (now : Int) (st : StatsState) :
    (cleanup_and_adjust exq now st).stat.window = st.stat.window
      ∨ (cleanup_and_adjust exq now st).stat.window = 120000 :=
  cleanupLoop_window_or exq now _ 2 st

theorem process_ok_window_or (exq : ℚ → ℚ) (now : Int) (rec : InnerOKRecord) (st : StatsState) :
    (process_ok exq now rec st).stat.window = st.stat.window
      ∨ (process_ok exq now rec st).stat.window = 120000 := by
  unfold process_ok
  rcases cleanup_and_adjust_window_or exq now
      { stat := count_inner_rec (refreshSnap now (some rec.received_millis) st.stat) (.OK rec) .Inc
        records := .OK rec :: st.records } with h | h
  · rw [h]
    left
    exact (count_inner_rec_frame _ _ _).1
  · exact Or.inr h

theorem reach_window (exq : ℚ → ℚ) (st : StatsState) (h : Reach exq st) :
    30000 ≤ st.stat.window ∧ st.stat.window ≤ 120000 := by
  induction h with
  | init => exact ⟨by norm_num [initState, initSnapshot], by norm_num [initState, initSnapshot]⟩
  | @ok now rec st2 hr ih =>
    rcases process_ok_window_or exq now rec st2 with h2 | h2 <;> rw [h2]
    · exact ih
    · exact ⟨by norm_num, le_refl _⟩
  | @err rec st2 hr ih =>
    have h2 := (count_inner_rec_frame st2.stat (.Err rec) .Inc).1
    simpa [process_err, h2] using ih
  | @tick now st2 hne hr ih =>
    rcases cleanup_and_adjust_window_or exq now st2 with h2 | h2 <;> rw [h2]
    · exact ih
    · exact ⟨by norm_num, le_refl _⟩

/-- Claim C5 (confirmed): the window starts at the default 60000 ms, and in
every reachable state (every ingest and every reporting tick included) the
window lies in [30000, 120000]; every adjustment the code performs writes a
value in that range (in fact always 120000). -/
theorem C5_window_bounds :
    initState.stat.window = 60000
      ∧ ∀ (exq : ℚ → ℚ) (st : StatsState), Reach exq st →
          30000 ≤ st.stat.window ∧ st.stat.window ≤ 120000 :=
  ⟨rfl, fun exq st h => reach_window exq st h⟩

/-- Claim C5 witness: the bounds hold at the reachable state obtained by
ingesting one malformed record into the fresh state. -/
theorem C5_window_bounds_witness :
    30000 ≤ (process_err errRec0 initState).stat.window
      ∧ (process_err errRec0 initState).stat.window ≤ 120000 :=
  C5_window_bounds.2 exOne (process_err errRec0 initState) (Reach.err errRec0 Reach.init)

/-- Claim C6 (confirmed): the `while recalc` loop of `cleanup_and_adjust`
terminates in at most two passes — any fuel of at least two yields the
fuel-two result — and of any two consecutive passes from any state, either
the first already requests no further iteration or the second does not
(a pass that changes the window forces it to 120000, after which the
candidate window equals the current one). -/
theorem C6_loop_two_passes :
    (∀ (exq : ℚ → ℚ) (now : Int) (st : StatsState) (n : Nat),
        cleanupLoop exq now (now - (st.stat.window : Int)) (n + 2) st
          = cleanup_and_adjust exq now st)
      ∧ ∀ (exq : ℚ → ℚ) (now oldest : Int) (st : StatsState),
          (cleanupPass exq now oldest st).2 = false
            ∨ (cleanupPass exq now oldest (cleanupPass exq now oldest st).1).2 = false := by
  constructor
  · intro exq now st n
    exact cleanupLoop_stable exq now _ n st
  · intro exq now oldest st
    by_cases hp : (cleanupPass exq now oldest st).2 = true
    · exact Or.inr (cleanupPass_fixed _ _ _ _ (cleanupPass_flag_window _ _ _ _ hp))
    · exact Or.inl (by simpa using hp)

/-- Claim C1 (code_bug): the candidate window written by
`cleanup_and_adjust` is `((100_000.0 / rate) as usize).min(30).max(120) * 1000`,
which is the constant 120000 for every rate — `min`/`max` are swapped with
respect to the clamp the spec describes.  The spec-worded clamp at the
spec's own example rate of 5000/s yields 30000, and on a snapshot measuring
rate 5000 with the default 60000 ms window the code instead sets the window
to 120000 (saving `previous_window = 60000` and requesting another pass). -/
theorem C1_window_clamp_bug :
    (∀ rate : ℚ, newWindowCalc rate = 120000)
      ∧ windowClampSpec 5000 = 30000
      ∧ ∀ s : StatsSnapshot,
          (adjust_window { s with rate := 5000, window := 60000 }).1.window = 120000
            ∧ (adjust_window { s with rate := 5000, window := 60000 }).1.previous_window = 60000
            ∧ (adjust_window { s with rate := 5000, window := 60000 }).2 = true := by
  refine ⟨newWindowCalc_eq, ?_, ?_⟩
  · norm_num [windowClampSpec, f64AsUsize]
  · intro s
    have hcond : (100000 : ℚ) < 5000 * ((60000 : ℚ) / 1000) := by norm_num
    refine ⟨?_, ?_, ?_⟩ <;>
      simp [adjust_window, newWindowCalc_eq, hcond] <;> norm_num

theorem countersSum_count (s : StatsSnapshot) (rec : InnerRecord) (act : Act) :
    countersSum (count_inner_rec s rec act) = countersSum s + act.val := by
  unfold countersSum
  exact count_inner_rec_sum s rec act

theorem adjust_window_counters (s : StatsSnapshot) :
    countersSum (adjust_window s).1 = countersSum s
      ∧ (adjust_window s).1.error_msg_counts = s.error_msg_counts
      ∧ (adjust_window s).1.error_msg_per_sec = s.error_msg_per_sec
      ∧ (adjust_window s).1.entries = s.entries := by
  rcases adjust_window_fst s with h | h <;> rw [h] <;> exact ⟨rfl, rfl, rfl, rfl⟩

theorem recalc_weights_counters (exq : ℚ → ℚ) (recs : List InnerRecord) (now : Int)
    (s : StatsSnapshot) :
    countersSum (recalc_weights exq recs now s) = countersSum s
      ∧ (recalc_weights exq recs now s).error_msg_counts = s.error_msg_counts
      ∧ (recalc_weights exq recs now s).error_msg_per_sec = s.error_msg_per_sec
      ∧ (recalc_weights exq recs now s).entries = s.entries := by
  obtain ⟨r2, hr⟩ := recalc_weights_frame exq recs now s
  rw [hr]
  exact ⟨rfl, rfl, rfl, rfl⟩

theorem evictRev_sum (oldest : Int) (l : List InnerRecord) (s : StatsSnapshot) :
    countersSum (evictRev oldest l s).2 - ((evictRev oldest l s).1.length : Int)
      = countersSum s - (l.length : Int) := by
  induction l generalizing s with
  | nil => simp [evictRev]
  | cons r rest ih =>
    by_cases h : r.recv_timestamp_millis < oldest
    · rw [show evictRev oldest (r :: rest) s
          = evictRev oldest rest (count_inner_rec s r .Dec) by simp [evictRev, h]]
      rw [ih]
      rw [countersSum_count]
      cases r with
      | OK ok => simp [Act.val]; push_cast; ring
      | Err e => simp [Act.val]; push_cast; ring
    · rw [show evictRev oldest (r :: rest) s = (r :: rest, s) by simp [evictRev, h]]

theorem cleanupMetrics_sum (exq : ℚ → ℚ) (now oldest : Int) (st : StatsState) :
    countersSum (cleanupMetrics exq now oldest st).1
        - ((cleanupMetrics exq now oldest st).2.length : Int)
      = countersSum st.stat - (st.records.length : Int) := by
  simp only [cleanupMetrics, evictBack]
  rw [(recalc_weights_counters _ _ _ _).1]
  have he := evictRev_sum oldest st.records.reverse
    { st.stat with entries := (st.records.length : Int) }
  split_ifs <;>
    simp only [countersSum, List.length_reverse] at he ⊢ <;>
    · push_cast at he ⊢
      omega

theorem cleanupPass_sum (exq : ℚ → ℚ) (now oldest : Int) (st : StatsState) :
    countersSum (cleanupPass exq now oldest st).1.stat
        - ((cleanupPass exq now oldest st).1.records.length : Int)
      = countersSum st.stat - (st.records.length : Int) := by
  simp only [cleanupPass]
  rw [(adjust_window_counters _).1]
  exact cleanupMetrics_sum exq now oldest st

theorem cleanupLoop_sum (exq : ℚ → ℚ) (now oldest : Int) (fuel : Nat) (st : StatsState) :
    countersSum (cleanupLoop exq now oldest fuel st).stat
        - ((cleanupLoop exq now oldest fuel st).records.length : Int)
      = countersSum st.stat - (st.records.length : Int) := by
  induction fuel generalizing st with
  | zero => rfl
  | succ n ih =>
    rw [cleanupLoop_succ]
    by_cases hp : (cleanupPass exq now oldest st).2
    · simp only [hp, if_true]
      rw [ih]
      exact cleanupPass_sum exq now oldest st
    · simp only [hp, if_false, Bool.false_eq_true]
      exact cleanupPass_sum exq now oldest st

theorem reach_sum (exq : ℚ → ℚ) (st : StatsState) (h : Reach exq st) :
    countersSum st.stat = (st.records.length : Int) := by
  induction h with
  | init => rfl
  | @ok now rec st2 hr ih =>
    unfold process_ok
    have hc := cleanupLoop_sum exq now
      (now - ((count_inner_rec (refreshSnap now (some rec.received_millis) st2.stat) (.OK rec) .Inc).window : Int)) 2
      { stat := count_inner_rec (refreshSnap now (some rec.received_millis) st2.stat) (.OK rec) .Inc
        records := .OK rec :: st2.records }
    unfold cleanup_and_adjust
    have hstep : countersSum (count_inner_rec (refreshSnap now (some rec.received_millis) st2.stat) (.OK rec) .Inc)
        = countersSum st2.stat + 1 := by
      rw [countersSum_count]
      rfl
    simp only [hstep, List.length_cons] at hc ⊢
    push_cast at hc ⊢
    omega
  | @err rec st2 hr ih =>
    have hstep : countersSum (count_inner_rec st2.stat (.Err rec) .Inc) = countersSum st2.stat + 1 := by
      rw [countersSum_count]
      rfl
    simp only [process_err, hstep, List.length_cons]
    push_cast
    omega
  | @tick now st2 hne hr ih =>
    have hc := cleanupLoop_sum exq now (now - (st2.stat.window : Int)) 2 st2
    unfold cleanup_and_adjust
    omega

/-- Claim C3 (corrected): what holds in every reachable state is
`errors + infos + debugs + malformed == records.len()`.  The `entries`
field, by contrast, is the deque length sampled at the start of the final
cleanup pass, before that pass's evictions, and the malformed-ingest path
does not update it at all, so `entries` can differ from both sides of the
claimed identity. -/
theorem C3_counter_coherence (exq : ℚ → ℚ) (st : StatsState) (h : Reach exq st) :
    st.stat.errors + st.stat.infos + st.stat.debugs + st.stat.malformed
      = (st.records.length : Int) :=
  reach_sum exq st h

/-- Claim C3 witness: the coherent sum at the reachable state with one
malformed record. -/
theorem C3_counter_coherence_witness :
    (process_err errRec0 initState).stat.errors + (process_err errRec0 initState).stat.infos
        + (process_err errRec0 initState).stat.debugs + (process_err errRec0 initState).stat.malformed
      = ((process_err errRec0 initState).records.length : Int) :=
  C3_counter_coherence exOne (process_err errRec0 initState) (Reach.err errRec0 Reach.init)

/-- Claim C3 counterexample: ingesting one `INFO` record whose receive time
is 100 s old makes the cleanup inside `process_ok` set `entries := 1` and
then evict the record, leaving `entries = 1` while the deque is empty and
the counters sum to 0 — so neither `sum = entries` nor
`entries = records.len()` holds after this ingest step. -/
theorem C3_counter_coherence_counterexample :
    Reach exOne c3State
      ∧ ¬(c3State.stat.errors + c3State.stat.infos + c3State.stat.debugs + c3State.stat.malformed
            = c3State.stat.entries
          ∧ c3State.stat.entries = (c3State.records.length : Int)) :=
  ⟨Reach.ok 100000 recI Reach.init, by decide⟩

theorem AMap.insert_ne_nil {α β : Type} [DecidableEq α] (m : AMap α β) (k : α) (v : β) :
    AMap.insert m k v ≠ [] := by
  cases m with
  | nil => simp [AMap.insert]
  | cons p t =>
    obtain ⟨a, b⟩ := p
    by_cases h : a = k <;> simp [AMap.insert, h]

theorem AMap.lookup_not_mem {α β : Type} [DecidableEq α] {m : AMap α β} {k : α}
    (h : k ∉ List.map Prod.fst m) : AMap.lookup m k = none := by
  induction m with
  | nil => rfl
  | cons p t ih =>
    obtain ⟨a, b⟩ := p
    simp only [List.map_cons, List.mem_cons] at h
    push_neg at h
    have ha : ¬(a = k) := fun h2 => h.1 h2.symm
    simp [AMap.lookup, ha, ih h.2]

theorem AMap.lookup_erase_self {α β : Type} [DecidableEq α] {m : AMap α β} {k : α}
    (h : AMap.NodupKeys m) : AMap.lookup (AMap.erase m k) k = none := by
  induction m with
  | nil => rfl
  | cons p t ih =>
    obtain ⟨a, b⟩ := p
    unfold AMap.NodupKeys at h
    simp only [List.map_cons, List.nodup_cons] at h
    by_cases ha : a = k
    · subst ha
      have he : AMap.erase ((a, b) :: t) a = t := by simp [AMap.erase]
      rw [he]
      exact AMap.lookup_not_mem h.1
    · simp [AMap.erase, AMap.lookup, ha, ih h.2]

theorem AMap.erase_eq_nil {α β : Type} [DecidableEq α] {m : AMap α β} {k : α}
    (h : AMap.erase m k = []) : m = [] ∨ ∃ v, m = [(k, v)] := by
  cases m with
  | nil => exact Or.inl rfl
  | cons p t =>
    obtain ⟨a, b⟩ := p
    by_cases ha : a = k
    · subst ha
      simp [AMap.erase] at h
      subst h
      exact Or.inr ⟨b, rfl⟩
    · simp [AMap.erase, ha] at h

theorem AMap.keys_insert_mem {α β : Type} [DecidableEq α] {m : AMap α β} {k a : α} {v : β}
    (h : a ∈ List.map Prod.fst (AMap.insert m k v)) :
    a = k ∨ a ∈ List.map Prod.fst m := by
  simp only [List.mem_map] at h
  obtain ⟨p, hp, hpa⟩ := h
  rcases AMap.mem_insert hp with h2 | h2
  · exact Or.inl (by rw [← hpa, h2])
  · exact Or.inr (by simp only [List.mem_map]; exact ⟨p, h2, hpa⟩)

theorem AMap.NodupKeys_insert {α β : Type} [DecidableEq α] {m : AMap α β}
    (h : AMap.NodupKeys m) (k : α) (v : β) : AMap.NodupKeys (AMap.insert m k v) := by
  induction m with
  | nil => simp [AMap.insert, AMap.NodupKeys]
  | cons p t ih =>
    obtain ⟨a, b⟩ := p
    unfold AMap.NodupKeys at h ⊢
    simp only [List.map_cons, List.nodup_cons] at h
    by_cases ha : a = k
    · subst ha
      have he : AMap.insert ((a, b) :: t) a v = (a, v) :: t := by simp [AMap.insert]
      rw [he]
      simp only [List.map_cons, List.nodup_cons]
      exact h
    · simp only [AMap.insert, if_neg ha, List.map_cons, List.nodup_cons]
      refine ⟨fun hmem => ?_, ih h.2⟩
      rcases AMap.keys_insert_mem hmem with h2 | h2
      · exact ha h2
      · exact h.1 h2

theorem AMap.keys_erase_mem {α β : Type} [DecidableEq α] {m : AMap α β} {k a : α}
    (h : a ∈ List.map Prod.fst (AMap.erase m k)) : a ∈ List.map Prod.fst m := by
  simp only [List.mem_map] at h ⊢
  obtain ⟨p, hp, hpa⟩ := h
  exact ⟨p, AMap.mem_erase hp, hpa⟩

theorem AMap.NodupKeys_erase {α β : Type} [DecidableEq α] {m : AMap α β}
    (h : AMap.NodupKeys m) (k : α) : AMap.NodupKeys (AMap.erase m k) := by
  induction m with
  | nil => simpa [AMap.erase] using h
  | cons p t ih =>
    obtain ⟨a, b⟩ := p
    unfold AMap.NodupKeys at h ⊢
    simp only [List.map_cons, List.nodup_cons] at h
    by_cases ha : a = k
    · simp only [AMap.erase, if_pos ha]
      exact h.2
    · simp only [AMap.erase, if_neg ha, List.map_cons, List.nodup_cons]
      exact ⟨fun hmem => h.1 (AMap.keys_erase_mem hmem), ih h.2⟩

theorem perSecTotal_insert (ps : AMap Int (AMap Nat Int)) (t : Int) (inner : AMap Nat Int)
    (msg : Nat) :
    perSecTotal (AMap.insert ps t inner) msg
      = perSecTotal ps msg - lookupCount ((AMap.lookup ps t).getD []) msg
          + lookupCount inner msg := by
  induction ps with
  | nil => simp [perSecTotal, AMap.insert, AMap.lookup, lookupCount]
  | cons p rest ih =>
    obtain ⟨a, b⟩ := p
    by_cases ha : a = t
    · subst ha
      have h1 : AMap.insert ((a, b) :: rest) a inner = (a, inner) :: rest := by
        simp [AMap.insert]
      have h2 : AMap.lookup ((a, b) :: rest) a = some b := by simp [AMap.lookup]
      rw [h1, h2]
      simp only [perSecTotal, List.map_cons, List.sum_cons, Option.getD_some]
      ring
    · have h1 : AMap.insert ((a, b) :: rest) t inner = (a, b) :: AMap.insert rest t inner := by
        simp [AMap.insert, ha]
      have h2 : AMap.lookup ((a, b) :: rest) t = AMap.lookup rest t := by
        simp [AMap.lookup, ha]
      rw [h1, h2]
      simp only [perSecTotal, List.map_cons, List.sum_cons] at ih ⊢
      omega

theorem perSecTotal_erase {ps : AMap Int (AMap Nat Int)} {t : Int} {inner : AMap Nat Int}
    (h : AMap.lookup ps t = some inner) (msg : Nat) :
    perSecTotal (AMap.erase ps t) msg = perSecTotal ps msg - lookupCount inner msg := by
  induction ps with
  | nil => simp [AMap.lookup] at h
  | cons p rest ih =>
    obtain ⟨a, b⟩ := p
    by_cases ha : a = t
    · simp only [AMap.lookup, ha, if_pos rfl] at h
      injection h with h
      subst h
      simp [AMap.erase, ha, perSecTotal]
    · simp only [AMap.lookup, ha, if_false] at h
      simp only [AMap.erase, if_neg ha, perSecTotal, List.map_cons, List.sum_cons]
      have := ih h
      simp only [perSecTotal] at this
      omega

theorem lookupCount_some {mm : AMap Nat Int} {k : Nat} {c : Int}
    (h : AMap.lookup mm k = some c) : lookupCount mm k = c := by
  simp [lookupCount, h]

theorem lookupCount_none {mm : AMap Nat Int} {k : Nat}
    (h : AMap.lookup mm k = none) : lookupCount mm k = 0 := by
  simp [lookupCount, h]

theorem lookupCount_insert_self (mm : AMap Nat Int) (k : Nat) (v : Int) :
    lookupCount (AMap.insert mm k v) k = v := by
  simp [lookupCount, AMap.lookup_insert]

theorem lookupCount_insert_ne (mm : AMap Nat Int) {k k' : Nat} (v : Int) (h : k' ≠ k) :
    lookupCount (AMap.insert mm k v) k' = lookupCount mm k' := by
  simp [lookupCount, AMap.lookup_insert_ne _ _ h]

theorem lookupCount_erase_ne (mm : AMap Nat Int) {k k' : Nat} (h : k' ≠ k) :
    lookupCount (AMap.erase mm k) k' = lookupCount mm k' := by
  simp [lookupCount, AMap.lookup_erase_ne _ h]

theorem lookupCount_erase_self {mm : AMap Nat Int} (h : AMap.NodupKeys mm) (k : Nat) :
    lookupCount (AMap.erase mm k) k = 0 := by
  simp [lookupCount, AMap.lookup_erase_self h]

theorem maps_step (C : AMap Nat Int) (P : AMap Int (AMap Nat Int)) (t : Int) (m : Nat) (d : Int)
    (hd : d ≠ 0)
    (htot : ∀ msg, lookupCount C msg = perSecTotal P msg)
    (hnz : ∀ p ∈ P, p.2 ≠ [] ∧ ∀ e ∈ p.2, e.2 ≠ 0)
    (hndP : AMap.NodupKeys P)
    (hndI : ∀ p ∈ P, AMap.NodupKeys p.2) :
    (∀ msg, lookupCount (AMap.bump C m d) msg = perSecTotal (perSecStep P t m d) msg)
      ∧ (∀ p ∈ perSecStep P t m d, p.2 ≠ [] ∧ ∀ e ∈ p.2, e.2 ≠ 0)
      ∧ AMap.NodupKeys (perSecStep P t m d)
      ∧ ∀ p ∈ perSecStep P t m d, AMap.NodupKeys p.2 := by
  have hbumpC : ∀ msg : Nat, lookupCount (AMap.bump C m d) msg
      = if msg = m then lookupCount C msg + d else lookupCount C msg := by
    intro msg
    by_cases hmm : msg = m
    · subst hmm
      rw [if_pos rfl]
      simp only [AMap.bump]
      rw [lookupCount_insert_self]
      rfl
    · rw [if_neg hmm]
      exact lookupCount_insert_ne _ _ hmm
  have main :
      ∀ inner1 : AMap Nat Int,
        (lookupCount inner1 m = lookupCount ((AMap.lookup P t).getD []) m + d) →
        (∀ msg : Nat, msg ≠ m → lookupCount inner1 msg = lookupCount ((AMap.lookup P t).getD []) msg) →
        ∀ msg, lookupCount (AMap.bump C m d) msg = perSecTotal (AMap.insert P t inner1) msg := by
    intro inner1 hm1 hm2 msg
    rw [hbumpC msg, perSecTotal_insert]
    have h0 := htot msg
    by_cases hmm : msg = m
    · subst hmm
      rw [hm1, if_pos rfl]
      omega
    · rw [hm2 msg hmm, if_neg hmm]
      omega
  cases hP : AMap.lookup P t with
  | none =>
    have hin0 : (AMap.lookup P t).getD [] = ([] : AMap Nat Int) := by rw [hP]; rfl
    have hinner : AMap.bump ((AMap.lookup P t).getD []) m d = [(m, d)] := by
      rw [hin0]
      simp [AMap.bump, AMap.lookup, AMap.insert]
    have hcnt2 : (AMap.lookup ([(m, d)] : AMap Nat Int) m).getD 0 = d := by
      simp [AMap.lookup]
    have hstep : perSecStep P t m d = AMap.insert P t [(m, d)] := by
      simp only [perSecStep, hinner, hcnt2, if_neg hd]
    rw [hstep]
    refine ⟨?_, ?_, AMap.NodupKeys_insert hndP t _, ?_⟩
    · refine main [(m, d)] ?_ ?_
      · have hz : lookupCount ([] : AMap Nat Int) m = 0 := rfl
        rw [hin0, hz, lookupCount_some (show AMap.lookup [(m, d)] m = some d by simp [AMap.lookup])]
        omega
      · intro msg hmm
        have hmm2 : ¬(m = msg) := fun h => hmm h.symm
        rw [hin0, lookupCount_none (show AMap.lookup [(m, d)] msg = none by
          simp [AMap.lookup, hmm2])]
        rfl
    · intro p hp
      rcases AMap.mem_insert hp with h2 | h2
      · subst h2
        refine ⟨by simp, ?_⟩
        intro e he
        simp only [List.mem_singleton] at he
        simp [he, hd]
      · exact hnz p h2
    · intro p hp
      rcases AMap.mem_insert hp with h2 | h2
      · subst h2
        simp [AMap.NodupKeys]
      · exact hndI p h2
  | some innerS =>
    have hin0 : (AMap.lookup P t).getD [] = innerS := by rw [hP]; rfl
    have hmemS : (t, innerS) ∈ P := AMap.lookup_mem hP
    have hndS : AMap.NodupKeys innerS := hndI _ hmemS
    have hnzS := hnz _ hmemS
    set x0 := lookupCount innerS m with hx0
    have hinner : AMap.bump ((AMap.lookup P t).getD []) m d = AMap.insert innerS m (x0 + d) := by
      rw [hin0]
      rfl
    have hcnt3 : (AMap.lookup (AMap.insert innerS m (x0 + d)) m).getD 0 = x0 + d := by
      rw [AMap.lookup_insert]
      rfl
    by_cases hcd : x0 + d = 0
    · have hx0ne : x0 ≠ 0 := fun h2 => hd (by omega)
      have hmS : AMap.lookup innerS m = some x0 := by
        cases hmm : AMap.lookup innerS m with
        | none => exact absurd (lookupCount_none hmm) (by rw [← hx0] at *; exact hx0ne)
        | some c =>
          rw [hx0, lookupCount_some hmm]
      have h1 : perSecStep P t m d
          = if AMap.isEmpty (AMap.erase innerS m) then AMap.erase P t
            else AMap.insert P t (AMap.erase innerS m) := by
        simp only [perSecStep, hinner, hcnt3, if_pos hcd, AMap.erase_insert]
      by_cases hie : AMap.erase innerS m = []
      · have hSshape : innerS = [(m, x0)] := by
          rcases AMap.erase_eq_nil hie with h2 | ⟨v, h2⟩
          · rw [h2] at hmS
            simp [AMap.lookup] at hmS
          · rw [h2] at hmS
            simp only [AMap.lookup, if_pos rfl] at hmS
            rw [h2]
            injection hmS with hv
            rw [hv]
        have hstep : perSecStep P t m d = AMap.erase P t := by
          rw [h1, hie]
          simp [AMap.isEmpty]
        rw [hstep]
        refine ⟨?_, ?_, AMap.NodupKeys_erase hndP t, ?_⟩
        · intro msg
          rw [hbumpC msg, perSecTotal_erase hP]
          have h0 := htot msg
          by_cases hmm : msg = m
          · subst hmm
            rw [if_pos rfl, ← hx0]
            omega
          · have hmm2 : ¬(m = msg) := fun h => hmm h.symm
            have hz : lookupCount innerS msg = 0 := by
              rw [hSshape]
              exact lookupCount_none (by simp [AMap.lookup, hmm2])
            rw [if_neg hmm, hz]
            omega
        · intro p hp
          exact hnz p (AMap.mem_erase hp)
        · intro p hp
          exact hndI p (AMap.mem_erase hp)
      · have hstep : perSecStep P t m d = AMap.insert P t (AMap.erase innerS m) := by
          rw [h1]
          have hieb : AMap.isEmpty (AMap.erase innerS m) = false := by
            cases hE : AMap.erase innerS m with
            | nil => exact absurd hE hie
            | cons q r => rfl
          rw [hieb]
          simp
        rw [hstep]
        refine ⟨?_, ?_, AMap.NodupKeys_insert hndP t _, ?_⟩
        · refine main (AMap.erase innerS m) ?_ ?_
          · rw [hin0, lookupCount_erase_self hndS, ← hx0]
            omega
          · intro msg hmm
            rw [hin0]
            exact lookupCount_erase_ne _ hmm
        · intro p hp
          rcases AMap.mem_insert hp with h2 | h2
          · subst h2
            exact ⟨hie, fun e he => hnzS.2 e (AMap.mem_erase he)⟩
          · exact hnz p h2
        · intro p hp
          rcases AMap.mem_insert hp with h2 | h2
          · subst h2
            exact AMap.NodupKeys_erase hndS m
          · exact hndI p h2
    · have hstep : perSecStep P t m d = AMap.insert P t (AMap.insert innerS m (x0 + d)) := by
        simp only [perSecStep, hinner, hcnt3, if_neg hcd]
      rw [hstep]
      refine ⟨?_, ?_, AMap.NodupKeys_insert hndP t _, ?_⟩
      · refine main (AMap.insert innerS m (x0 + d)) ?_ ?_
        · rw [hin0, lookupCount_insert_self, ← hx0]
        · intro msg hmm
          rw [hin0]
          exact lookupCount_insert_ne _ _ hmm
      · intro p hp
        rcases AMap.mem_insert hp with h2 | h2
        · subst h2
          refine ⟨AMap.insert_ne_nil _ _ _, ?_⟩
          intro e he
          rcases AMap.mem_insert he with h3 | h3
          · rw [h3]
            exact hcd
          · exact hnzS.2 e h3
        · exact hnz p h2
      · intro p hp
        rcases AMap.mem_insert hp with h2 | h2
        · subst h2
          exact AMap.NodupKeys_insert hndS m (x0 + d)
        · exact hndI p h2

theorem count_inner_rec_mapsInv (s : StatsSnapshot) (rec : InnerRecord) (act : Act)
    (h : mapsInv s) : mapsInv (count_inner_rec s rec act) := by
  obtain ⟨htot, hnz, hndP, hndI⟩ := h
  cases rec with
  | Err e =>
    obtain ⟨rm, et⟩ := e
    cases et
    exact ⟨htot, hnz, hndP, hndI⟩
  | OK ok =>
    obtain ⟨recv, logm, lvl, m⟩ := ok
    cases lvl with
    | INFO => exact ⟨htot, hnz, hndP, hndI⟩
    | DEBUG => exact ⟨htot, hnz, hndP, hndI⟩
    | ERROR =>
      have hd : Act.val act ≠ 0 := by cases act <;> decide
      have h2 := maps_step s.error_msg_counts s.error_msg_per_sec
        ((InnerRecord.OK ⟨recv, logm, .ERROR, m⟩).log_timestamp) m act.val hd htot hnz hndP hndI
      exact ⟨h2.1, h2.2.1, h2.2.2.1, h2.2.2.2⟩

theorem evictRev_mapsInv (oldest : Int) (l : List InnerRecord) (s : StatsSnapshot)
    (h : mapsInv s) : mapsInv (evictRev oldest l s).2 := by
  induction l generalizing s with
  | nil => exact h
  | cons r rest ih =>
    by_cases hc : r.recv_timestamp_millis < oldest
    · rw [show evictRev oldest (r :: rest) s
          = evictRev oldest rest (count_inner_rec s r .Dec) by simp [evictRev, hc]]
      exact ih _ (count_inner_rec_mapsInv s r .Dec h)
    · rw [show evictRev oldest (r :: rest) s = (r :: rest, s) by simp [evictRev, hc]]
      exact h

theorem recalc_weights_mapsInv (exq : ℚ → ℚ) (recs : List InnerRecord) (now : Int)
    (s : StatsSnapshot) (h : mapsInv s) : mapsInv (recalc_weights exq recs now s) := by
  obtain ⟨r2, hr⟩ := recalc_weights_frame exq recs now s
  rw [hr]
  exact h

theorem cleanupMetrics_mapsInv (exq : ℚ → ℚ) (now oldest : Int) (st : StatsState)
    (h : mapsInv st.stat) : mapsInv (cleanupMetrics exq now oldest st).1 := by
  simp only [cleanupMetrics, evictBack]
  apply recalc_weights_mapsInv
  split_ifs <;> exact evictRev_mapsInv oldest _ _ h

theorem adjust_window_mapsInv (s : StatsSnapshot) (h : mapsInv s) :
    mapsInv (adjust_window s).1 := by
  rcases adjust_window_fst s with h2 | h2 <;> rw [h2]
  · exact h
  · exact h

theorem cleanupPass_mapsInv (exq : ℚ → ℚ) (now oldest : Int) (st : StatsState)
    (h : mapsInv st.stat) : mapsInv (cleanupPass exq now oldest st).1.stat := by
  simp only [cleanupPass]
  exact adjust_window_mapsInv _ (cleanupMetrics_mapsInv exq now oldest st h)

theorem cleanupLoop_mapsInv (exq : ℚ → ℚ) (now oldest : Int) (fuel : Nat) (st : StatsState)
    (h : mapsInv st.stat) : mapsInv (cleanupLoop exq now oldest fuel st).stat := by
  induction fuel generalizing st with
  | zero => exact h
  | succ n ih =>
    rw [cleanupLoop_succ]
    by_cases hp : (cleanupPass exq now oldest st).2
    · simp only [hp, if_true]
      exact ih _ (cleanupPass_mapsInv exq now oldest st h)
    · simp only [hp, if_false, Bool.false_eq_true]
      exact cleanupPass_mapsInv exq now oldest st h

theorem reach_mapsInv (exq : ℚ → ℚ) (st : StatsState) (h : Reach exq st) :
    mapsInv st.stat := by
  induction h with
  | init =>
    refine ⟨fun msg => rfl, ?_, ?_, ?_⟩
    · intro p hp
      exact absurd hp (List.not_mem_nil p)
    · simp [AMap.NodupKeys, initState, initSnapshot]
    · intro p hp
      exact absurd hp (List.not_mem_nil p)
  | @ok now rec st2 hr ih =>
    unfold process_ok cleanup_and_adjust
    apply cleanupLoop_mapsInv
    exact count_inner_rec_mapsInv _ (.OK rec) .Inc ih
  | @err rec st2 hr ih =>
    exact count_inner_rec_mapsInv _ (.Err rec) .Inc ih
  | @tick now st2 hne hr ih =>
    unfold cleanup_and_adjust
    exact cleanupLoop_mapsInv _ _ _ _ _ ih

/-- Claim C4 (corrected): after every ingest/evict step, every message's
histogram value (a missing key reading as 0) equals the sum of its counts
over the second-buckets of `error_msg_per_sec`, and the per-second structure
is pruned: no stored count is zero and no stored second is empty.  The
claimed removal of a zero-total `msg_id` happens only in
`error_msg_per_sec`; the key stays in `error_msg_counts` with value 0. -/
theorem C4_histogram_coherence (exq : ℚ → ℚ) (st : StatsState) (h : Reach exq st) :
    (∀ msg, lookupCount st.stat.error_msg_counts msg
        = perSecTotal st.stat.error_msg_per_sec msg)
      ∧ perSecNoZero st.stat.error_msg_per_sec := by
  have h2 := reach_mapsInv exq st h
  exact ⟨h2.1, h2.2.1⟩

/-- Claim C4 witness: the value/sum identity at message 0 in the initial
(reachable) state. -/
theorem C4_histogram_coherence_witness :
    lookupCount initState.stat.error_msg_counts 0
      = perSecTotal initState.stat.error_msg_per_sec 0 :=
  (C4_histogram_coherence exOne initState Reach.init).1 0

/-- Claim C4 counterexample: ingesting the `ERROR` record with id 7 received
100 s before `now` makes the cleanup inside `process_ok` evict it again; the
per-second total of message 7 is 0 and `error_msg_per_sec` is empty, yet key
7 is still present in `error_msg_counts` (with value 0) — refuting the
claimed removal from both structures. -/
theorem C4_histogram_coherence_counterexample :
    Reach exOne c4State
      ∧ AMap.lookup c4State.stat.error_msg_counts 7 = some 0
      ∧ perSecTotal c4State.stat.error_msg_per_sec 7 = 0
      ∧ c4State.stat.error_msg_per_sec = [] :=
  ⟨Reach.ok 100000 recE Reach.init, by decide, by decide, by decide⟩

theorem dropWhile_fresh (now : Int) : ∀ l : List Int, List.Pairwise (· ≤ ·) l →
    ∀ x ∈ l.dropWhile (fun last => decide (1000 < now - last)), now - x ≤ 1000 := by
  intro l
  induction l with
  | nil =>
    intro _ x hx
    simp at hx
  | cons a t ih =>
    intro hp x hx
    rw [List.pairwise_cons] at hp
    by_cases ha : 1000 < now - a
    · rw [List.dropWhile_cons_of_pos (by simpa using ha)] at hx
      exact ih hp.2 x hx
    · rw [List.dropWhile_cons_of_neg (by simpa using ha)] at hx
      rcases List.mem_cons.mp hx with h2 | h2
      · subst h2
        omega
      · have := hp.1 x h2
        omega

/-- Claim C8 (corrected): provided the deque (after the optional push) is
ordered newest-first — which holds in the program since receive stamps are
taken in arrival order — every element retained by `refresh_last_second`
satisfies `now - ts ≤ 1000`.  The bound is not strict: the eviction drops
only elements with `now - ts > 1000`, so an element exactly 1000 ms old is
kept. -/
theorem C8_last_second_bound (now : Int) (ts : Option Int) (dq : List Int)
    (hsort : List.Pairwise (· ≥ ·) (match ts with | some t => t :: dq | none => dq)) :
    ∀ x ∈ refresh_last_second now ts dq, now - x ≤ 1000 := by
  intro x hx
  simp only [refresh_last_second] at hx
  rw [List.mem_reverse] at hx
  refine dropWhile_fresh now _ ?_ x hx
  rw [List.pairwise_reverse]
  exact hsort

/-- Claim C8 witness: at `now = 1000` a pushed stamp 500 is retained and is
at most 1000 ms old; the sortedness hypothesis holds for the singleton. -/
theorem C8_last_second_bound_witness : (1000 : Int) - 500 ≤ 1000 :=
  C8_last_second_bound 1000 (some 500) [] (by simp) 500 (by decide)

/-- Claim C8 counterexample: at `now = 1000` the stamp 0 is exactly 1000 ms
old; `refresh_last_second` keeps it (it only evicts when `now - ts > 1000`),
so the retained element violates the claimed strict bound `now - ts < 1000`. -/
theorem C8_last_second_bound_counterexample :
    (0 : Int) ∈ refresh_last_second 1000 (some 0) [] ∧ ¬((1000 : Int) - 0 < 1000) := by
  decide

theorem i64AsUsize_of_range {v : Int} (h0 : 0 ≤ v) (h1 : v < 2 ^ 64) :
    i64AsUsize v = v.toNat := by
  unfold i64AsUsize
  rw [Int.emod_eq_of_lt h0 h1]

theorem groupIdx_past {now ws msec : Int} (hws : 0 < ws) (hp : msec ≤ now)
    (hs : (now - msec) * 2 < ws * 2 ^ 64) :
    groupIdx now ws msec = (((now - msec) * 2).tdiv ws).toNat
      ∧ ((now - msec) * 2).tdiv ws < 2 ^ 64 ∧ 0 ≤ ((now - msec) * 2).tdiv ws := by
  have h0 : (0 : Int) ≤ (now - msec) * 2 := by omega
  have hq0 : 0 ≤ ((now - msec) * 2).tdiv ws := Int.tdiv_nonneg h0 (le_of_lt hws)
  have hqe : ((now - msec) * 2).tdiv ws = ((now - msec) * 2) / ws :=
    Int.tdiv_eq_ediv h0 (le_of_lt hws)
  have hqlt : ((now - msec) * 2).tdiv ws < 2 ^ 64 := by
    rw [hqe]
    rw [Int.ediv_lt_iff_lt_mul hws]
    calc (now - msec) * 2 < ws * 2 ^ 64 := hs
    _ = 2 ^ 64 * ws := by ring
  exact ⟨i64AsUsize_of_range hq0 hqlt, hqlt, hq0⟩

theorem groupIdx_mono {now ws msec msec2 : Int} (hws : 0 < ws)
    (hp : msec ≤ now) (hp2 : msec2 ≤ msec)
    (hs : (now - msec) * 2 < ws * 2 ^ 64) (hs2 : (now - msec2) * 2 < ws * 2 ^ 64) :
    groupIdx now ws msec ≤ groupIdx now ws msec2 := by
  obtain ⟨he, _, h0⟩ := groupIdx_past hws hp hs
  obtain ⟨he2, _, h02⟩ := groupIdx_past hws (le_trans hp2 hp) hs2
  rw [he, he2]
  have hle : ((now - msec) * 2).tdiv ws ≤ ((now - msec2) * 2).tdiv ws := by
    rw [Int.tdiv_eq_ediv (by omega) (le_of_lt hws), Int.tdiv_eq_ediv (by omega) (le_of_lt hws)]
    exact Int.ediv_le_ediv hws (by omega)
  omega

theorem groupIdx_future_near {now ws msec : Int} (hws : 0 < ws) (hf : now < msec)
    (hn : 2 * (msec - now) < ws) : groupIdx now ws msec = 0 := by
  have h1 : (now - msec) * 2 = -((msec - now) * 2) := by ring
  have h2 : ((msec - now) * 2).tdiv ws = 0 := by
    rw [Int.tdiv_eq_ediv (by omega) (le_of_lt hws)]
    exact Int.ediv_eq_zero_of_lt (by omega) (by omega)
  unfold groupIdx
  rw [h1, Int.neg_tdiv, h2]
  rfl

theorem groupIdx_future_far {now ws msec : Int} (hws : 0 < ws) (hr : ws ≤ 2 * (msec - now))
    (hs : 2 * (msec - now) ≤ 2 ^ 63) : 1 < groupIdx now ws msec := by
  have h1 : (now - msec) * 2 = -((msec - now) * 2) := by ring
  have hq1 : 1 ≤ ((msec - now) * 2).tdiv ws := by
    rw [Int.tdiv_eq_ediv (by omega) (le_of_lt hws)]
    rw [Int.le_ediv_iff_mul_le hws]
    omega
  have hqle : ((msec - now) * 2).tdiv ws ≤ 2 ^ 63 := by
    rw [Int.tdiv_eq_ediv (by omega) (le_of_lt hws)]
    calc (msec - now) * 2 / ws ≤ (msec - now) * 2 := Int.ediv_le_self _ (by omega)
    _ ≤ 2 ^ 63 := by omega
  unfold groupIdx
  rw [h1, Int.neg_tdiv]
  set q := ((msec - now) * 2).tdiv ws with hqdef
  have hrange1 : (0 : Int) ≤ -q + 2 ^ 64 := by omega
  have hrange2 : -q + 2 ^ 64 < 2 ^ 64 := by omega
  have hmod : (-q) % (2 ^ 64) = -q + 2 ^ 64 := by
    have h3 := Int.add_mul_emod_self_left (-q) (2 ^ 64) 1
    rw [mul_one] at h3
    rw [← h3]
    exact Int.emod_eq_of_lt hrange1 hrange2
  unfold i64AsUsize
  rw [hmod]
  omega

theorem accumBucket_foldl_not_mem (exq : ℚ → ℚ) (ws base msec : Int) (msg : Nat) :
    ∀ (inner : AMap Nat Int) (g : AMap Nat ℚ), msg ∉ List.map Prod.fst inner →
      AMap.lookup (accumBucket exq ws base msec inner g) msg = AMap.lookup g msg := by
  intro inner
  induction inner with
  | nil => intro g _; rfl
  | cons p rest ih =>
    intro g hmem
    obtain ⟨k, c⟩ := p
    simp only [List.map_cons, List.mem_cons] at hmem
    push_neg at hmem
    show AMap.lookup (accumBucket exq ws base msec rest _) msg = _
    rw [ih _ hmem.2]
    exact AMap.lookup_insert_ne _ _ hmem.1

theorem accumBucket_lookup (exq : ℚ → ℚ) (ws base msec : Int) (msg : Nat) :
    ∀ (inner : AMap Nat Int) (g : AMap Nat ℚ), AMap.NodupKeys inner →
      AMap.lookup (accumBucket exq ws base msec inner g) msg
        = (match AMap.lookup inner msg with
           | some c => some ((AMap.lookup g msg).getD 0
               + exq (((base - msec : Int) : ℚ) / (ws : ℚ)) * (c : ℚ))
           | none => AMap.lookup g msg) := by
  intro inner
  induction inner with
  | nil => intro g _; rfl
  | cons p rest ih =>
    intro g hnd
    obtain ⟨k, c⟩ := p
    unfold AMap.NodupKeys at hnd
    simp only [List.map_cons, List.nodup_cons] at hnd
    by_cases hk : k = msg
    · subst hk
      show AMap.lookup (accumBucket exq ws base msec rest _) k = _
      rw [accumBucket_foldl_not_mem exq ws base msec k rest _ hnd.1]
      rw [AMap.lookup_insert]
      simp [AMap.lookup]
    · show AMap.lookup (accumBucket exq ws base msec rest _) msg = _
      rw [ih _ hnd.2]
      have hg : AMap.lookup (AMap.insert g k (((AMap.lookup g k).getD 0)
          + exq (((base - msec : Int) : ℚ) / (ws : ℚ)) * (c : ℚ))) msg = AMap.lookup g msg :=
        AMap.lookup_insert_ne _ _ (fun h => hk h.symm)
      have hl : AMap.lookup ((k, c) :: rest) msg = AMap.lookup rest msg := by
        simp [AMap.lookup, hk]
      rw [hl]
      cases AMap.lookup rest msg with
      | none => exact hg
      | some c2 => rw [hg]

theorem secContrib_nil (ps : AMap Int (AMap Nat Int)) (now ws : Int) (j : Nat) (msg : Nat) :
    ¬ secContrib ps now ws [] j msg := by
  simp [secContrib]

theorem secContrib_cons (ps : AMap Int (AMap Nat Int)) (now ws : Int) (sec : Int)
    (rest : List Int) (j : Nat) (msg : Nat) :
    secContrib ps now ws (sec :: rest) j msg
      ↔ (groupIdx now ws (sec * 1000) = j
            ∧ (AMap.lookup ((AMap.lookup ps sec).getD []) msg).isSome)
          ∨ secContrib ps now ws rest j msg := by
  simp [secContrib, List.mem_cons, or_and_right, exists_or]

theorem groupWeightSpec_nil (exq : ℚ → ℚ) (ps : AMap Int (AMap Nat Int)) (now ws : Int)
    (j : Nat) (msg : Nat) : groupWeightSpec exq ps now ws [] j msg = 0 := rfl

theorem groupWeightSpec_cons_eq (exq : ℚ → ℚ) (ps : AMap Int (AMap Nat Int)) (now ws : Int)
    {sec : Int} (rest : List Int) {j : Nat} (msg : Nat)
    (h : groupIdx now ws (sec * 1000) = j) :
    groupWeightSpec exq ps now ws (sec :: rest) j msg
      = exq (((baseTime now ws j - sec * 1000 : Int) : ℚ) / (ws : ℚ))
            * (bucketCount ps sec msg : ℚ)
          + groupWeightSpec exq ps now ws rest j msg := by
  simp [groupWeightSpec, List.filter_cons, h]

theorem groupWeightSpec_cons_ne (exq : ℚ → ℚ) (ps : AMap Int (AMap Nat Int)) (now ws : Int)
    {sec : Int} (rest : List Int) {j : Nat} (msg : Nat)
    (h : ¬ groupIdx now ws (sec * 1000) = j) :
    groupWeightSpec exq ps now ws (sec :: rest) j msg
      = groupWeightSpec exq ps now ws rest j msg := by
  simp [groupWeightSpec, List.filter_cons, h]

theorem groupWeightSpec_zero (exq : ℚ → ℚ) (ps : AMap Int (AMap Nat Int)) (now ws : Int)
    (secs : List Int) (j : Nat) (msg : Nat)
    (h : ¬ secContrib ps now ws secs j msg) :
    groupWeightSpec exq ps now ws secs j msg = 0 := by
  unfold groupWeightSpec
  apply List.sum_eq_zero
  intro x hx
  simp only [List.mem_map, List.mem_filter] at hx
  obtain ⟨sec, ⟨hmem, hj⟩, hval⟩ := hx
  have hnone : AMap.lookup ((AMap.lookup ps sec).getD []) msg = none := by
    cases hl : AMap.lookup ((AMap.lookup ps sec).getD []) msg with
    | none => rfl
    | some c =>
      exact absurd ⟨sec, hmem, by simpa using hj, by simp [hl]⟩ h
  rw [← hval]
  have hb : bucketCount ps sec msg = 0 := by
    simp [bucketCount, lookupCount, hnone]
  rw [hb]
  simp

theorem scanGroups_lookup (exq : ℚ → ℚ) (ps : AMap Int (AMap Nat Int)) (now ws : Int)
    (hws : 0 < ws) (msg : Nat) :
    ∀ secs : List Int, List.Pairwise (· ≥ ·) secs →
      (∀ sec ∈ secs, sec * 1000 ≤ now) →
      (∀ sec ∈ secs, (now - sec * 1000) * 2 < ws * 2 ^ 64) →
      (∀ sec ∈ secs, AMap.NodupKeys ((AMap.lookup ps sec).getD [])) →
      ∀ g0 g1 : AMap Nat ℚ,
        (AMap.lookup (scanGroups exq ps now ws secs (g0, g1)).1 msg
          = if secContrib ps now ws secs 0 msg
            then some ((AMap.lookup g0 msg).getD 0 + groupWeightSpec exq ps now ws secs 0 msg)
            else AMap.lookup g0 msg)
        ∧ (AMap.lookup (scanGroups exq ps now ws secs (g0, g1)).2 msg
          = if secContrib ps now ws secs 1 msg
            then some ((AMap.lookup g1 msg).getD 0 + groupWeightSpec exq ps now ws secs 1 msg)
            else AMap.lookup g1 msg) := by
  intro secs
  induction secs with
  | nil =>
    intro _ _ _ _ g0 g1
    constructor <;> rw [if_neg (secContrib_nil ps now ws _ msg)] <;> rfl
  | cons sec rest ih =>
    intro hsort hpast hsane hnd g0 g1
    rw [List.pairwise_cons] at hsort
    have hpz := hpast sec (List.mem_cons_self _ _)
    have hsz := hsane sec (List.mem_cons_self _ _)
    have hpastR : ∀ s2 ∈ rest, s2 * 1000 ≤ now := fun s2 h2 => hpast s2 (List.mem_cons_of_mem _ h2)
    have hsaneR : ∀ s2 ∈ rest, (now - s2 * 1000) * 2 < ws * 2 ^ 64 :=
      fun s2 h2 => hsane s2 (List.mem_cons_of_mem _ h2)
    have hndR : ∀ s2 ∈ rest, AMap.NodupKeys ((AMap.lookup ps s2).getD []) :=
      fun s2 h2 => hnd s2 (List.mem_cons_of_mem _ h2)
    by_cases h1 : 1 < groupIdx now ws (sec * 1000)
    · have hscan : scanGroups exq ps now ws (sec :: rest) (g0, g1) = (g0, g1) := by
        simp [scanGroups, h1]
      have hnone : ∀ j : Nat, j ≤ 1 → ¬ secContrib ps now ws (sec :: rest) j msg := by
        intro j hj hcon
        obtain ⟨s2, hmem, hjid, _⟩ := hcon
        rcases List.mem_cons.mp hmem with h2 | h2
        · subst h2
          omega
        · have hle : groupIdx now ws (sec * 1000) ≤ groupIdx now ws (s2 * 1000) :=
            groupIdx_mono hws hpz (by
              have := hsort.1 s2 h2
              omega) hsz (hsaneR s2 h2)
          omega
      rw [hscan]
      constructor
      · rw [if_neg (hnone 0 (by omega))]
      · rw [if_neg (hnone 1 (by omega))]
    · have hle1 : groupIdx now ws (sec * 1000) ≤ 1 := by omega
      have hndz := hnd sec (List.mem_cons_self _ _)
      rcases Nat.lt_or_ge (groupIdx now ws (sec * 1000)) 1 with hg | hg
      · -- group 0
        have hg0 : groupIdx now ws (sec * 1000) = 0 := by omega
        have hscan : scanGroups exq ps now ws (sec :: rest) (g0, g1)
            = scanGroups exq ps now ws rest
                (accumBucket exq ws (now - ws.tdiv 2) (sec * 1000)
                  ((AMap.lookup ps sec).getD []) g0, g1) := by
          simp [scanGroups, h1, hg0]
        obtain ⟨ih0, ih1⟩ := ih hsort.2 hpastR hsaneR hndR
          (accumBucket exq ws (now - ws.tdiv 2) (sec * 1000) ((AMap.lookup ps sec).getD []) g0) g1
        have hL6 := accumBucket_lookup exq ws (now - ws.tdiv 2) (sec * 1000) msg
          ((AMap.lookup ps sec).getD []) g0 hndz
        rw [hscan]
        constructor
        · rw [ih0]
          cases hin : AMap.lookup ((AMap.lookup ps sec).getD []) msg with
          | some c =>
            rw [hin] at hL6
            have hconsC : secContrib ps now ws (sec :: rest) 0 msg := by
              rw [secContrib_cons]
              exact Or.inl ⟨hg0, by simp [hin]⟩
            rw [if_pos hconsC, groupWeightSpec_cons_eq exq ps now ws rest msg hg0]
            have hbc : (bucketCount ps sec msg : ℚ) = (c : ℚ) := by
              simp [bucketCount, lookupCount, hin]
            by_cases hcr : secContrib ps now ws rest 0 msg
            · rw [if_pos hcr, hL6, hbc]
              simp only [Option.getD_some]
              rw [show baseTime now ws 0 = now - ws.tdiv 2 from rfl]
              ring_nf
            · rw [if_neg hcr, hL6, hbc, groupWeightSpec_zero exq ps now ws rest 0 msg hcr]
              rw [show baseTime now ws 0 = now - ws.tdiv 2 from rfl]
              ring_nf
          | none =>
            rw [hin] at hL6
            have hiff : secContrib ps now ws (sec :: rest) 0 msg
                ↔ secContrib ps now ws rest 0 msg := by
              rw [secContrib_cons]
              simp [hin]
            have hws2 : groupWeightSpec exq ps now ws (sec :: rest) 0 msg
                = groupWeightSpec exq ps now ws rest 0 msg := by
              rw [groupWeightSpec_cons_eq exq ps now ws rest msg hg0]
              have hb : bucketCount ps sec msg = 0 := by
                simp [bucketCount, lookupCount, hin]
              rw [hb]
              ring
            by_cases hcr : secContrib ps now ws rest 0 msg
            · rw [if_pos (hiff.mpr hcr), if_pos hcr, hL6, hws2]
            · rw [if_neg (fun h2 => hcr (hiff.mp h2)), if_neg hcr, hL6]
        · rw [ih1]
          have hiff : secContrib ps now ws (sec :: rest) 1 msg
              ↔ secContrib ps now ws rest 1 msg := by
            rw [secContrib_cons]
            simp [hg0]
          have hws2 : groupWeightSpec exq ps now ws (sec :: rest) 1 msg
              = groupWeightSpec exq ps now ws rest 1 msg :=
            groupWeightSpec_cons_ne exq ps now ws rest msg (by omega)
          by_cases hcr : secContrib ps now ws rest 1 msg
          · rw [if_pos (hiff.mpr hcr), if_pos hcr, hws2]
          · rw [if_neg (fun h2 => hcr (hiff.mp h2)), if_neg hcr]
      · -- group 1
        have hg1 : groupIdx now ws (sec * 1000) = 1 := by omega
        have hscan : scanGroups exq ps now ws (sec :: rest) (g0, g1)
            = scanGroups exq ps now ws rest
                (g0, accumBucket exq ws now (sec * 1000) ((AMap.lookup ps sec).getD []) g1) := by
          simp [scanGroups, h1, hg1]
        obtain ⟨ih0, ih1⟩ := ih hsort.2 hpastR hsaneR hndR
          g0 (accumBucket exq ws now (sec * 1000) ((AMap.lookup ps sec).getD []) g1)
        have hL6 := accumBucket_lookup exq ws now (sec * 1000) msg
          ((AMap.lookup ps sec).getD []) g1 hndz
        rw [hscan]
        constructor
        · rw [ih0]
          have hiff : secContrib ps now ws (sec :: rest) 0 msg
              ↔ secContrib ps now ws rest 0 msg := by
            rw [secContrib_cons]
            simp [hg1]
          have hws2 : groupWeightSpec exq ps now ws (sec :: rest) 0 msg
              = groupWeightSpec exq ps now ws rest 0 msg :=
            groupWeightSpec_cons_ne exq ps now ws rest msg (by omega)
          by_cases hcr : secContrib ps now ws rest 0 msg
          · rw [if_pos (hiff.mpr hcr), if_pos hcr, hws2]
          · rw [if_neg (fun h2 => hcr (hiff.mp h2)), if_neg hcr]
        · rw [ih1]
          cases hin : AMap.lookup ((AMap.lookup ps sec).getD []) msg with
          | some c =>
            rw [hin] at hL6
            have hconsC : secContrib ps now ws (sec :: rest) 1 msg := by
              rw [secContrib_cons]
              exact Or.inl ⟨hg1, by simp [hin]⟩
            rw [if_pos hconsC, groupWeightSpec_cons_eq exq ps now ws rest msg hg1]
            have hbc : (bucketCount ps sec msg : ℚ) = (c : ℚ) := by
              simp [bucketCount, lookupCount, hin]
            by_cases hcr : secContrib ps now ws rest 1 msg
            · rw [if_pos hcr, hL6, hbc]
              simp only [Option.getD_some]
              rw [show baseTime now ws 1 = now from rfl]
              ring_nf
            · rw [if_neg hcr, hL6, hbc, groupWeightSpec_zero exq ps now ws rest 1 msg hcr]
              rw [show baseTime now ws 1 = now from rfl]
              ring_nf
          | none =>
            rw [hin] at hL6
            have hiff : secContrib ps now ws (sec :: rest) 1 msg
                ↔ secContrib ps now ws rest 1 msg := by
              rw [secContrib_cons]
              simp [hin]
            have hws2 : groupWeightSpec exq ps now ws (sec :: rest) 1 msg
                = groupWeightSpec exq ps now ws rest 1 msg := by
              rw [groupWeightSpec_cons_eq exq ps now ws rest msg hg1]
              have hb : bucketCount ps sec msg = 0 := by
                simp [bucketCount, lookupCount, hin]
              rw [hb]
              ring
            by_cases hcr : secContrib ps now ws rest 1 msg
            · rw [if_pos (hiff.mpr hcr), if_pos hcr, hL6, hws2]
            · rw [if_neg (fun h2 => hcr (hiff.mp h2)), if_neg hcr, hL6]

theorem bucketCount_nonneg (ps : AMap Int (AMap Nat Int)) (sec : Int) (msg : Nat)
    (hpos : ∀ p ∈ ps, ∀ e ∈ p.2, 0 < e.2) : 0 ≤ bucketCount ps sec msg := by
  unfold bucketCount lookupCount
  cases hps : AMap.lookup ps sec with
  | none => simp [AMap.lookup]
  | some inner =>
    simp only [Option.getD_some]
    cases hin : AMap.lookup inner msg with
    | none => simp [hin]
    | some c =>
      have h2 := hpos _ (AMap.lookup_mem hps) _ (AMap.lookup_mem hin)
      simp [hin]
      exact le_of_lt h2

theorem bucketCount_pos (ps : AMap Int (AMap Nat Int)) (sec : Int) (msg : Nat)
    (hpos : ∀ p ∈ ps, ∀ e ∈ p.2, 0 < e.2)
    (hsome : (AMap.lookup ((AMap.lookup ps sec).getD []) msg).isSome) :
    0 < bucketCount ps sec msg := by
  unfold bucketCount lookupCount
  cases hps : AMap.lookup ps sec with
  | none =>
    rw [hps] at hsome
    simp [AMap.lookup] at hsome
  | some inner =>
    rw [hps] at hsome
    simp only [Option.getD_some] at hsome ⊢
    cases hin : AMap.lookup inner msg with
    | none =>
      rw [hin] at hsome
      simp at hsome
    | some c =>
      have h2 := hpos _ (AMap.lookup_mem hps) _ (AMap.lookup_mem hin)
      simp [hin]
      exact h2

theorem groupWeightSpec_pos (exq : ℚ → ℚ) (hex : ∀ q, 0 < exq q)
    (ps : AMap Int (AMap Nat Int)) (now ws : Int) (secs : List Int) (j : Nat) (msg : Nat)
    (hpos : ∀ p ∈ ps, ∀ e ∈ p.2, 0 < e.2)
    (hc : secContrib ps now ws secs j msg) :
    0 < groupWeightSpec exq ps now ws secs j msg := by
  obtain ⟨sec, hmem, hj, hsome⟩ := hc
  unfold groupWeightSpec
  have hnn : ∀ x ∈ (List.map
      (fun sec => exq (((baseTime now ws j - sec * 1000 : Int) : ℚ) / (ws : ℚ))
          * (bucketCount ps sec msg : ℚ))
      (List.filter (fun sec => groupIdx now ws (sec * 1000) = j) secs)), 0 ≤ x := by
    intro x hx
    simp only [List.mem_map] at hx
    obtain ⟨sec2, _, hval⟩ := hx
    rw [← hval]
    apply mul_nonneg (le_of_lt (hex _))
    exact_mod_cast bucketCount_nonneg ps sec2 msg hpos
  have hmemx : exq (((baseTime now ws j - sec * 1000 : Int) : ℚ) / (ws : ℚ))
        * (bucketCount ps sec msg : ℚ)
      ∈ (List.map
        (fun sec => exq (((baseTime now ws j - sec * 1000 : Int) : ℚ) / (ws : ℚ))
            * (bucketCount ps sec msg : ℚ))
        (List.filter (fun sec => groupIdx now ws (sec * 1000) = j) secs)) := by
    apply List.mem_map_of_mem
    rw [List.mem_filter]
    exact ⟨hmem, by simpa using hj⟩
  have hxpos : 0 < exq (((baseTime now ws j - sec * 1000 : Int) : ℚ) / (ws : ℚ))
      * (bucketCount ps sec msg : ℚ) := by
    apply mul_pos (hex _)
    exact_mod_cast bucketCount_pos ps sec msg hpos hsome
  have hle := List.single_le_sum hnn _ hmemx
  linarith

theorem foldRates_not_mem (f : Nat → ℚ) :
    ∀ (keys : List Nat) (rates : AMap Nat ℚ) (msg : Nat), msg ∉ keys →
      AMap.lookup (List.foldl (fun r m2 => AMap.insert r m2 (f m2)) rates keys) msg
        = AMap.lookup rates msg := by
  intro keys
  induction keys with
  | nil => intro rates msg _; rfl
  | cons k rest ih =>
    intro rates msg hmem
    rw [List.mem_cons] at hmem
    push_neg at hmem
    rw [List.foldl_cons, ih _ _ hmem.2]
    exact AMap.lookup_insert_ne _ _ hmem.1

theorem foldRates_mem (f : Nat → ℚ) :
    ∀ (keys : List Nat) (rates : AMap Nat ℚ) (msg : Nat), msg ∈ keys →
      AMap.lookup (List.foldl (fun r m2 => AMap.insert r m2 (f m2)) rates keys) msg
        = some (f msg) := by
  intro keys
  induction keys with
  | nil =>
    intro rates msg hmem
    exact absurd hmem (List.not_mem_nil msg)
  | cons k rest ih =>
    intro rates msg hmem
    rw [List.foldl_cons]
    by_cases hr : msg ∈ rest
    · exact ih _ msg hr
    · have hk : msg = k := by
        rcases List.mem_cons.mp hmem with h | h
        · exact h
        · exact absurd h hr
      subst hk
      rw [foldRates_not_mem f rest _ msg hr, AMap.lookup_insert]

theorem groupWeightSpec_perm (exq : ℚ → ℚ) (ps : AMap Int (AMap Nat Int)) (now ws : Int)
    {secs1 secs2 : List Int} (h : secs1.Perm secs2) (j : Nat) (msg : Nat) :
    groupWeightSpec exq ps now ws secs1 j msg = groupWeightSpec exq ps now ws secs2 j msg := by
  unfold groupWeightSpec
  exact List.Perm.sum_eq (List.Perm.map _ (List.Perm.filter _ h))

theorem secContrib_perm (ps : AMap Int (AMap Nat Int)) (now ws : Int)
    {secs1 secs2 : List Int} (h : secs1.Perm secs2) (j : Nat) (msg : Nat) :
    secContrib ps now ws secs1 j msg ↔ secContrib ps now ws secs2 j msg := by
  unfold secContrib
  constructor
  · rintro ⟨sec, hmem, hrest⟩
    exact ⟨sec, h.mem_iff.mp hmem, hrest⟩
  · rintro ⟨sec, hmem, hrest⟩
    exact ⟨sec, h.mem_iff.mpr hmem, hrest⟩

theorem recalcSpan_ge (front : InnerRecord) (rest : List InnerRecord) :
    15000 ≤ recalcSpan front rest :=
  le_max_right _ _

/-- Claim C7 (confirmed): with the inputs the program supplies (positive
per-second counts, unique keys, buckets not in the future, spans within
`i64` sanity), `recalc_weights` assigns every key of `error_msg_counts` the
trend rate newer-group weight over older-group weight when the older weight
is positive and `0` otherwise, where the group weights are the sums of
`exq((base_time[group] - s*1000) / span) * count` over the group's buckets,
with base times `now - span/2` (group 0, newer) and `now` (group 1, older). -/
theorem C7_trend_weights (exq : ℚ → ℚ) (front : InnerRecord) (rest : List InnerRecord)
    (now : Int) (s : StatsSnapshot)
    (hex : ∀ q, 0 < exq q)
    (hpast : ∀ sec ∈ AMap.keys s.error_msg_per_sec, sec * 1000 ≤ now)
    (hsane : ∀ sec ∈ AMap.keys s.error_msg_per_sec,
        (now - sec * 1000) * 2 < recalcSpan front rest * 2 ^ 64)
    (hpos : ∀ p ∈ s.error_msg_per_sec, ∀ e ∈ p.2, 0 < e.2)
    (hnd : ∀ p ∈ s.error_msg_per_sec, AMap.NodupKeys p.2) :
    ∀ msg ∈ AMap.keys s.error_msg_counts,
      AMap.lookup (recalc_weights exq (front :: rest) now s).error_msg_rates msg
        = some
            (if 0 < groupWeightSpec exq s.error_msg_per_sec now (recalcSpan front rest)
                  (AMap.keys s.error_msg_per_sec) 1 msg
             then groupWeightSpec exq s.error_msg_per_sec now (recalcSpan front rest)
                    (AMap.keys s.error_msg_per_sec) 0 msg
                  / groupWeightSpec exq s.error_msg_per_sec now (recalcSpan front rest)
                      (AMap.keys s.error_msg_per_sec) 1 msg
             else 0) := by
  intro msg hmsg
  have hge := recalcSpan_ge front rest
  have hws : 0 < recalcSpan front rest := by omega
  have hlt : ¬(recalcSpan front rest < 2000) := by omega
  have hperm := List.perm_insertionSort (· ≥ ·) (AMap.keys s.error_msg_per_sec)
  have hsorted : List.Pairwise (· ≥ ·)
      (List.insertionSort (· ≥ ·) (AMap.keys s.error_msg_per_sec)) :=
    List.sorted_insertionSort (· ≥ ·) (AMap.keys s.error_msg_per_sec)
  have hpastS : ∀ sec ∈ List.insertionSort (· ≥ ·) (AMap.keys s.error_msg_per_sec),
      sec * 1000 ≤ now := fun sec h => hpast sec (hperm.mem_iff.mp h)
  have hsaneS : ∀ sec ∈ List.insertionSort (· ≥ ·) (AMap.keys s.error_msg_per_sec),
      (now - sec * 1000) * 2 < recalcSpan front rest * 2 ^ 64 :=
    fun sec h => hsane sec (hperm.mem_iff.mp h)
  have hndS : ∀ sec ∈ List.insertionSort (· ≥ ·) (AMap.keys s.error_msg_per_sec),
      AMap.NodupKeys ((AMap.lookup s.error_msg_per_sec sec).getD []) := by
    intro sec _
    cases hl : AMap.lookup s.error_msg_per_sec sec with
    | none => exact List.nodup_nil
    | some inner => exact hnd _ (AMap.lookup_mem hl)
  obtain ⟨h0, h1⟩ := scanGroups_lookup exq s.error_msg_per_sec now (recalcSpan front rest)
    hws msg (List.insertionSort (· ≥ ·) (AMap.keys s.error_msg_per_sec))
    hsorted hpastS hsaneS hndS [] []
  have hnil : AMap.lookup ([] : AMap Nat ℚ) msg = none := rfl
  simp only [hnil, Option.getD_none, zero_add] at h0 h1
  simp only [recalc_weights]
  rw [if_neg hlt]
  show AMap.lookup (List.foldl _ s.error_msg_rates (AMap.keys s.error_msg_counts)) msg = _
  rw [foldRates_mem _ _ _ _ hmsg]
  congr 1
  by_cases hc1 : secContrib s.error_msg_per_sec now (recalcSpan front rest)
      (List.insertionSort (· ≥ ·) (AMap.keys s.error_msg_per_sec)) 1 msg
  · rw [if_pos hc1] at h1
    rw [h1]
    have hS1pos := groupWeightSpec_pos exq hex s.error_msg_per_sec now (recalcSpan front rest)
      _ 1 msg hpos hc1
    have hp1 := groupWeightSpec_perm exq s.error_msg_per_sec now (recalcSpan front rest)
      hperm 1 msg
    have hp0 := groupWeightSpec_perm exq s.error_msg_per_sec now (recalcSpan front rest)
      hperm 0 msg
    rw [← hp1, ← hp0, if_pos (by rw [← hp1] at *; exact hS1pos)]
    have hnum : ((scanGroups exq s.error_msg_per_sec now (recalcSpan front rest)
        (List.insertionSort (· ≥ ·) (AMap.keys s.error_msg_per_sec)) ([], [])).1.lookup msg).getD 0
          = groupWeightSpec exq s.error_msg_per_sec now (recalcSpan front rest)
              (List.insertionSort (· ≥ ·) (AMap.keys s.error_msg_per_sec)) 0 msg := by
      by_cases hc0 : secContrib s.error_msg_per_sec now (recalcSpan front rest)
          (List.insertionSort (· ≥ ·) (AMap.keys s.error_msg_per_sec)) 0 msg
      · rw [if_pos hc0] at h0
        rw [h0]
        rfl
      · rw [if_neg hc0] at h0
        rw [h0, groupWeightSpec_zero _ _ _ _ _ _ _ hc0]
        rfl
    rw [hnum]
  · rw [if_neg hc1] at h1
    rw [h1]
    have hz := groupWeightSpec_zero exq s.error_msg_per_sec now (recalcSpan front rest) _ 1 msg hc1
    have hp1 := groupWeightSpec_perm exq s.error_msg_per_sec now (recalcSpan front rest)
      hperm 1 msg
    rw [← hp1, hz, if_neg (by norm_num)]

/-- Claim C7 witness: the snapshot `sw7` (message 5 seen twice in the bucket
at second -1, no older bucket) with one deque record at wall time 0: all
hypotheses are concrete and the conclusion instantiates at message 5. -/
theorem C7_trend_weights_witness :
    AMap.lookup (recalc_weights exOne (r10 :: []) 0 sw7).error_msg_rates 5
      = some
          (if 0 < groupWeightSpec exOne sw7.error_msg_per_sec 0 (recalcSpan r10 [])
                (AMap.keys sw7.error_msg_per_sec) 1 5
           then groupWeightSpec exOne sw7.error_msg_per_sec 0 (recalcSpan r10 [])
                  (AMap.keys sw7.error_msg_per_sec) 0 5
                / groupWeightSpec exOne sw7.error_msg_per_sec 0 (recalcSpan r10 [])
                    (AMap.keys sw7.error_msg_per_sec) 1 5
           else 0) :=
  C7_trend_weights exOne r10 [] 0 sw7
    (fun q => by norm_num [exOne])
    (by decide) (by decide) (by decide) (by decide)
    5 (by decide)

/-- Claim C10 (corrected): a future bucket triggers the wrapped-index early
break only when it is at least half a span ahead (`window_size ≤
2*(s*1000 - now)`), in which case nothing accumulates and every key of
`error_msg_counts` gets rate 0; a future bucket nearer than half a span gets
group index 0 (Rust `i64` division truncates toward zero) and is accumulated
into the newer group. -/
theorem C10_future_bucket_wrap :
    (∀ now ws msec : Int, 0 < ws → now < msec → 2 * (msec - now) < ws →
        groupIdx now ws msec = 0)
      ∧ (∀ now ws msec : Int, 0 < ws → ws ≤ 2 * (msec - now) → 2 * (msec - now) ≤ 2 ^ 63 →
          1 < groupIdx now ws msec)
      ∧ ∀ (exq : ℚ → ℚ) (front : InnerRecord) (rest : List InnerRecord) (now : Int)
          (s : StatsSnapshot) (sec0 : Int),
          (List.insertionSort (· ≥ ·) (AMap.keys s.error_msg_per_sec)).head? = some sec0 →
          recalcSpan front rest ≤ 2 * (sec0 * 1000 - now) →
          2 * (sec0 * 1000 - now) ≤ 2 ^ 63 →
          ∀ msg ∈ AMap.keys s.error_msg_counts,
            AMap.lookup (recalc_weights exq (front :: rest) now s).error_msg_rates msg
              = some 0 := by
  refine ⟨fun now ws msec hws hf hn => groupIdx_future_near hws hf hn,
    fun now ws msec hws hr hs => groupIdx_future_far hws hr hs, ?_⟩
  intro exq front rest now s sec0 hhead hfar hsane msg hmsg
  have hge := recalcSpan_ge front rest
  have hws : 0 < recalcSpan front rest := by omega
  have hlt : ¬(recalcSpan front rest < 2000) := by omega
  have hidx : 1 < groupIdx now (recalcSpan front rest) (sec0 * 1000) :=
    groupIdx_future_far hws hfar hsane
  simp only [recalc_weights]
  rw [if_neg hlt]
  show AMap.lookup (List.foldl _ s.error_msg_rates (AMap.keys s.error_msg_counts)) msg = _
  rw [foldRates_mem _ _ _ _ hmsg]
  congr 1
  cases hsort : List.insertionSort (· ≥ ·) (AMap.keys s.error_msg_per_sec) with
  | nil =>
    rw [hsort] at hhead
    simp at hhead
  | cons a tail =>
    rw [hsort] at hhead
    simp only [List.head?_cons, Option.some.injEq] at hhead
    subst hhead
    have hscan : scanGroups exq s.error_msg_per_sec now (recalcSpan front rest)
        (a :: tail) (([] : AMap Nat ℚ), ([] : AMap Nat ℚ)) = ([], []) := by
      simp [scanGroups, hidx]
    rw [hscan]
    simp [AMap.lookup]

theorem C10_future_bucket_wrap_witness :
    groupIdx 0 15000 1000 = 0 ∧ 1 < groupIdx 0 15000 8000
      ∧ AMap.lookup (recalc_weights exOne (r10 :: []) 0 sFar).error_msg_rates 7 = some 0 :=
  ⟨C10_future_bucket_wrap.1 0 15000 1000 (by decide) (by decide) (by decide),
   C10_future_bucket_wrap.2.1 0 15000 8000 (by decide) (by decide) (by decide),
   C10_future_bucket_wrap.2.2 exOne r10 [] 0 sFar 8 (by decide) (by decide) (by decide)
     7 (by decide)⟩

theorem C10_future_bucket_wrap_counterexample :
    (List.insertionSort (· ≥ ·) (AMap.keys s10.error_msg_per_sec)).head? = some 1
      ∧ (0 : Int) < 1 * 1000
      ∧ AMap.lookup (recalc_weights exOne (r10 :: []) 0 s10).error_msg_rates 7 = some 1 := by
  refine ⟨by decide, by decide, ?_⟩
  have hlt : ¬(recalcSpan r10 [] < 2000) := by decide
  have hspan : recalcSpan r10 [] = 15000 := by decide
  have hsort : List.insertionSort (· ≥ ·) (AMap.keys s10.error_msg_per_sec)
      = [1, -8] := by decide
  have hg1 : groupIdx 0 15000 (1 * 1000) = 0 := by decide
  have hg1b : groupIdx 0 15000 1000 = 0 := by decide
  have hg3 : groupIdx 0 15000 (-8 * 1000) = 1 := by decide
  have hg3b : groupIdx 0 15000 (-8000) = 1 := by decide
  have hkeys : AMap.keys s10.error_msg_counts = [7] := by decide
  simp only [recalc_weights]
  rw [if_neg hlt]
  simp only [hkeys, List.foldl_cons, List.foldl_nil, AMap.lookup_insert]
  congr 1
  rw [hsort, hspan]
  have hscan : scanGroups exOne s10.error_msg_per_sec 0 15000 ([1, -8] : List Int)
      (([] : AMap Nat ℚ), ([] : AMap Nat ℚ)) = ([(7, (1 : ℚ))], [(7, (1 : ℚ))]) := by
    simp [scanGroups, hg1, hg1b, hg3, hg3b, s10, initSnapshot, AMap.lookup,
      accumBucket, AMap.insert, exOne]
  rw [hscan]
  norm_num [AMap.lookup]
